import Mathlib

/-!
# z21cli: a verification development

Shallow embedding of the command layer of `trains-io/z21cli` (`src/cmd/*.go`).

Conventions of the embedding:
* Go's `uint8` / `uint16` values are natural numbers; every `uint8` addition
  is reduced modulo `256` where the source adds.
* `fmt.Sprintf("%d", n)` on an unsigned value is `Nat.repr n`.
* `strings.Join(parts, ",")` is `",".intercalate parts`.
* Types and constants of the external library `github.com/trains-io/z21.go`
  are reconstructed from the way the commands use them; the numeric values of
  its constants are parameters (`Z21Consts`).
-/

namespace Z21cli

/-! ## Data model (`z21.DetectorPort`, `z21.Detector`, `z21.CanDetector`) -/

/-- Numeric constants of the external `z21` package that the commands compare
against.  Their values are not part of this repository. -/
structure Z21Consts where
  CANMessageTypeStatus : Nat
  FREE : Nat
  FREE_NOVOLT : Nat
  CAN_BROADCAST_NID : Nat
deriving DecidableEq, Repr

/-- `z21.DetectorPort{Index uint8, Status uint16}`. -/
structure DetectorPort where
  Index : Nat
  Status : Nat
deriving DecidableEq, Repr

/-- `z21.Detector{NetworkID uint16, Address, Ports []DetectorPort}`. -/
structure Detector where
  NetworkID : Nat
  Address : Nat
  Ports : List DetectorPort
deriving DecidableEq, Repr

/-- `z21.CanDetector`: the fields the commands read or write (`Typ` is the Go
field `Type`, a reserved word here). -/
structure CanDetector where
  NetworkID : Nat
  Address : Nat
  Port : Nat
  Typ : Nat
  Value1 : Nat
deriving DecidableEq, Repr

/-! ## `can.go`: port formatting -/

/-- `formatPortIndex(index uint8)`: `fmt.Sprintf("%d", index+1)` in `uint8`. -/
def formatPortIndex (index : Nat) : String :=
  Nat.repr ((index + 1) % 256)

/-- `formatPortStatus(status uint16)`. -/
def formatPortStatus (k : Z21Consts) (status : Nat) : String :=
  if status = k.FREE ∨ status = k.FREE_NOVOLT then "free" else "busy"

/-- `formatRange(start, previous uint8)`: both are incremented in `uint8`
(shift to 1-based output) and rendered as `"a"` or `"a-b"`. -/
def formatRange (start previous : Nat) : String :=
  let start := (start + 1) % 256
  let previous := (previous + 1) % 256
  if start = previous then Nat.repr start
  else Nat.repr start ++ "-" ++ Nat.repr previous

/-- Body of the `for _, n := range ports[1:]` loop of `formatPortsAsRange`,
followed by the final `append`: the loop state is `(parts, start, prev)`. -/
def formatPortsAsRangeLoop (parts : List String) (start prev : Nat) :
    List DetectorPort → List String
  | [] => parts ++ [formatRange start prev]
  | n :: rest =>
    if n.Index = (prev + 1) % 256 then
      formatPortsAsRangeLoop parts start n.Index rest
    else
      formatPortsAsRangeLoop (parts ++ [formatRange start prev]) n.Index n.Index rest

/-- `formatPortsAsRange(ports []z21.DetectorPort) string`. -/
def formatPortsAsRange : List DetectorPort → String
  | [] => ""
  | p :: rest => ",".intercalate (formatPortsAsRangeLoop [] p.Index p.Index rest)

/-- Ports carrying the given indices (status `0`), the shape built by discovery. -/
def portsOf (idx : List Nat) : List DetectorPort :=
  idx.map fun i => { Index := i, Status := 0 }

/-! ### Maximal runs of consecutive indices (statement side) -/

/-- The indices a run `(first, last)` holds, in order. -/
def runIndices (r : Nat × Nat) : List Nat :=
  List.range' r.1 (r.2 + 1 - r.1)

/-- Rendering of one run with 1-based numbers: `"a"` when the run holds one
index, `"a-b"` otherwise. -/
def renderRun (r : Nat × Nat) : String :=
  if r.1 = r.2 then Nat.repr (r.1 + 1)
  else Nat.repr (r.1 + 1) ++ "-" ++ Nat.repr (r.2 + 1)

/-- The list `rs` is the decomposition of `idx` into its maximal runs of
consecutive indices: every run is non-empty, the runs listed one after the
other are exactly `idx`, and no run is continued by the run that follows. -/
structure IsMaximalRuns (rs : List (Nat × Nat)) (idx : List Nat) : Prop where
  ordered : ∀ r ∈ rs, r.1 ≤ r.2
  covers : (rs.map runIndices).flatten = idx
  maximal : rs.Chain' (fun r s => s.1 ≠ r.2 + 1)

/-- The runs the loop of `formatPortsAsRange` closes, as pairs, from the loop
state `(start, prev)` and the indices still to be read (proof device: the
loop itself is `formatPortsAsRangeLoop`). -/
def runsFrom (start prev : Nat) : List Nat → List (Nat × Nat)
  | [] => [(start, prev)]
  | n :: rest =>
    if n = prev + 1 then runsFrom start n rest
    else (start, prev) :: runsFrom n n rest

/-! ## `can.go`: discovery -/

/-- A message of the connection's event stream (`z21.Serializable`): the
commands of `can.go` distinguish `*z21.CanDetector` from every other message
type; `z21.Logoff` is the request of `context reset`. -/
inductive Event where
  | canDetector (v : CanDetector)
  | logoff
  | other (tag : Nat)
deriving DecidableEq, Repr

/-- Whether two messages have the same dynamic Go type (the test `res.(T)`). -/
def Event.sameType : Event → Event → Bool
  | .canDetector _, .canDetector _ => true
  | .logoff, .logoff => true
  | .other a, .other b => a == b
  | _, _ => false

/-- The Go map `map[uint16]z21.Detector`: lookup by key. -/
abbrev DeviceMap := Nat → Option Detector

/-- One turn of `case ev := <-events` in `canDiscoverCmd` (can.go 57-72). -/
def canDiscoverStep (k : Z21Consts) (devices : DeviceMap) : Event → DeviceMap
  | .canDetector v =>
    if v.Typ = k.CANMessageTypeStatus then
      let dev : Detector :=
        match devices v.NetworkID with
        | some d => d
        | none => { NetworkID := v.NetworkID, Address := v.Address, Ports := [] }
      let dev := { dev with Ports := dev.Ports ++ [{ Index := v.Port, Status := 0 }] }
      Function.update devices v.NetworkID (some dev)
    else devices
  | _ => devices

/-- The device map `canDiscoverCmd` holds when `ctx.Done()` fires, after the
events received before that were folded in arrival order, starting from the
empty map. -/
def canDiscoverFold (k : Z21Consts) (events : List Event) : DeviceMap :=
  events.foldl (canDiscoverStep k) (fun _ => none)

/-- One turn of `case ev := <-events` in `canInfoCmd` (can.go 206-219); the
state is the pointer `device`, `nil` being `none`. -/
def canInfoStep (k : Z21Consts) (device : Option Detector) : Event → Option Detector
  | .canDetector v =>
    if v.Typ = k.CANMessageTypeStatus then
      let dev : Detector :=
        match device with
        | some d => d
        | none => { NetworkID := v.NetworkID, Address := v.Address, Ports := [] }
      some { dev with Ports := dev.Ports ++ [{ Index := v.Port, Status := v.Value1 }] }
    else device
  | _ => device

/-- What `printCanDeviceInfo` writes: the line `Device not found`, or the
device header followed by one table row per port. -/
inductive InfoOutput where
  | notFound
  | device (networkID address : Nat) (rows : List (String × String))
deriving DecidableEq, Repr

/-- `printCanDeviceInfo(d *z21.Detector)`. -/
def printCanDeviceInfo (k : Z21Consts) : Option Detector → InfoOutput
  | none => .notFound
  | some d =>
    .device d.NetworkID d.Address
      (d.Ports.map fun p => (formatPortIndex p.Index, formatPortStatus k p.Status))

/-- The pointer `device` of `canInfoCmd` when `ctx.Done()` fires, after the
events received before that were folded in arrival order, starting from `nil`. -/
def canInfoFold (k : Z21Consts) (events : List Event) : Option Detector :=
  events.foldl (canInfoStep k) none

/-! ### Detector-status reports of an event sequence (statement side) -/

/-- The detector-status reports among the events, in arrival order. -/
def statusReports (k : Z21Consts) (events : List Event) : List CanDetector :=
  events.filterMap fun
    | .canDetector v => if v.Typ = k.CANMessageTypeStatus then some v else none
    | _ => none

/-- Whether the event is a detector-status report carrying the network
identifier `nid`. -/
def isStatusReportOf (k : Z21Consts) (nid : Nat) : Event → Bool
  | .canDetector v => decide (v.Typ = k.CANMessageTypeStatus) && decide (v.NetworkID = nid)
  | _ => false

/-- The record scan-all holds for `nid` after the given detector-status
reports: none without a report of `nid`, else identifier and address of the
first such report and one port entry (status zero) per report, in order. -/
def deviceOfReports (nid : Nat) (reports : List CanDetector) : Option Detector :=
  match reports.filter (fun v => v.NetworkID = nid) with
  | [] => none
  | v :: vs =>
    some { NetworkID := v.NetworkID, Address := v.Address,
           Ports := (v :: vs).map fun x => { Index := x.Port, Status := 0 } }

/-- The record scan-one holds after the given detector-status reports: none
without any report, else identifier and address of the first report and one
port entry (index and value) per report, in order. -/
def deviceOfAllReports (reports : List CanDetector) : Option Detector :=
  match reports with
  | [] => none
  | v :: vs =>
    some { NetworkID := v.NetworkID, Address := v.Address,
           Ports := (v :: vs).map fun x => { Index := x.Port, Status := x.Value1 } }

/-- Constants used in the examples: status type 1, free codes 0 and 0x0100,
broadcast network identifier 0xD000. -/
def exampleConsts : Z21Consts :=
  { CANMessageTypeStatus := 1, FREE := 0, FREE_NOVOLT := 256, CAN_BROADCAST_NID := 53248 }

/-- A detector-status report (type 1) of the given device, port and value. -/
def exampleReport (nid addr port value : Nat) : Event :=
  .canDetector { NetworkID := nid, Address := addr, Port := port, Typ := 1, Value1 := value }

/-! ## `context.go`: the profile store -/

/-- `SessionInfo{LocalHost string, LocalPort int}`. -/
structure SessionInfo where
  LocalHost : String
  LocalPort : Int
deriving DecidableEq, Repr

/-- `ContextInfo{Name, Host string, Port int, Session *SessionInfo}`. -/
structure ContextInfo where
  Name : String
  Host : String
  Port : Int
  Session : Option SessionInfo
deriving DecidableEq, Repr

/-- `ContextStore{Current string, Contexts []ContextInfo}`. -/
structure ContextStore where
  Current : String
  Contexts : List ContextInfo
deriving DecidableEq, Repr

/-- The file `contextFile`: missing, not readable or not valid JSON (with the
error `os.ReadFile` / `json.Unmarshal` reports), or the JSON of a store. -/
inductive FileState where
  | missing
  | broken (err : String)
  | content (store : ContextStore)
deriving DecidableEq, Repr

/-- `net.UDPAddr{IP, Port}`. -/
structure UDPAddr where
  IP : String
  Port : Int
deriving DecidableEq, Repr

/-- `net.Dialer{LocalAddr}`; `none` is the zero value `&net.Dialer{}`. -/
structure Dialer where
  LocalAddr : Option UDPAddr
deriving DecidableEq, Repr

/-- The state the commands read and change: the context file, whether
`os.WriteFile` on it succeeds, the stores written by successful
`saveContexts` calls (oldest first), the `z21.Connect` calls made (oldest
first), and the numbers of connections opened and closed. -/
structure World where
  file : FileState
  diskWritable : Bool
  writes : List ContextStore
  dials : List (String × Dialer)
  connsOpened : Nat
  connsClosed : Nat
deriving DecidableEq, Repr

/-- `loadContexts()`. -/
def loadContexts (w : World) : Except String ContextStore :=
  match w.file with
  | .missing => .ok { Current := "", Contexts := [] }
  | .broken err => .error err
  | .content store => .ok store

/-- `loadCurrentContext()`: the first context named `store.Current`. -/
def loadCurrentContext (w : World) : Except String ContextInfo :=
  match loadContexts w with
  | .error err => .error ("failed to load contexts: " ++ err)
  | .ok store =>
    if store.Current = "" then
      .error "no current context set, run `z21 ctx use <NAME>` first"
    else
      match store.Contexts.find? (fun c => c.Name = store.Current) with
      | some c => .ok c
      | none =>
        .error ("current context \"" ++ store.Current ++ "\" not found in saved contexts")

/-- `saveContexts(store)`: the returned error and the world afterwards. A store
of the model holds its strings as `json.Unmarshal` reads them back, so writing
and reading again gives the same store; a string that comes from the command
line enters a store through `jsonString`. -/
def saveContexts (store : ContextStore) (w : World) : Option String × World :=
  if w.diskWritable then
    (none, { w with file := .content store, writes := w.writes ++ [store] })
  else
    (some "write failed", w)

/-- The loop of `saveSessionInfo` (context.go 308-315): the session of the
first context with the given name is replaced; `none` when no context has
that name (`found` stays false). -/
def setSessionOfFirst (name : String) (sess : SessionInfo) :
    List ContextInfo → Option (List ContextInfo)
  | [] => none
  | c :: cs =>
    if c.Name = name then some ({ c with Session := some sess } :: cs)
    else (setSessionOfFirst name sess cs).map (c :: ·)

/-- `saveSessionInfo(sess, ctx)`. -/
def saveSessionInfo (sess : SessionInfo) (ctx : ContextInfo) (w : World) :
    Option String × World :=
  match loadContexts w with
  | .error err => (some err, w)
  | .ok store =>
    match setSessionOfFirst ctx.Name sess store.Contexts with
    | none => (some ("context \"" ++ ctx.Name ++ "\" not found in saved contexts"), w)
    | some contexts => saveContexts { store with Contexts := contexts } w

/-! ## `root.go`: connection set-up and requests -/

/-- A connection `*z21.Conn` as the commands use it: the outcome of
`SendRcv(ctx, msg)` (an error, or a possibly nil reply) and the outcome of
parsing `GetLocalPort().String()` into host and port. -/
structure Conn where
  sendRcv : Event → Except String (Option Event)
  localEndpoint : Except String (String × Int)

/-- The network: what `z21.Connect(host, ..., SetCustomDialer(dialer))` returns. -/
structure Network where
  connect : String → Dialer → Except String Conn

/-- `AppContext` (without the logger). -/
structure AppContext where
  Conn : Option Conn
  ContextName : String
  Host : String
  Port : Int
  Session : Option SessionInfo
  Resumed : Bool

/-- `Req[T](conn, msg)`: the error of `SendRcv`, or the reply when it has the
type of the request, or the empty value (`none`) with a nil error otherwise. -/
def Req (conn : Conn) (msg : Event) : Except String (Option Event) :=
  match conn.sendRcv msg with
  | .error err => .error err
  | .ok none => .ok none
  | .ok (some res) => if res.sameType msg then .ok (some res) else .ok none

/-- `getLocalPort(c *z21.Conn)`. -/
def getLocalPort : Option Conn → Except String (String × Int)
  | none => .error "invalid connection"
  | some c => c.localEndpoint

/-- The dialer and the flag `resumed` chosen by `InitAppContext` (root.go
80-95) from the stored session of the current context. -/
def sessionDialer (session : Option SessionInfo) : Dialer × Bool :=
  match session with
  | some s =>
    if s.LocalPort > 0 then
      ({ LocalAddr := some { IP := "0.0.0.0", Port := s.LocalPort } }, true)
    else ({ LocalAddr := none }, false)
  | none => ({ LocalAddr := none }, false)

/-- What `InitAppContext` leaves behind: the returned error, the `AppContext`
stored with `cmd.SetContext` (if that line was reached), and the world. -/
structure InitResult where
  err : Option String
  app : Option AppContext
  world : World

/-- `InitAppContext(cmd)`. -/
def InitAppContext (net : Network) (w : World) : InitResult :=
  match loadCurrentContext w with
  | .error err => { err := some err, app := none, world := w }
  | .ok c =>
    let dialer := (sessionDialer c.Session).1
    let resumed := (sessionDialer c.Session).2
    let w1 := { w with dials := w.dials ++ [(c.Host, dialer)] }
    match net.connect c.Host dialer with
    | .error err =>
      { err := some ("failed to connect to Z21: " ++ err), app := none, world := w1 }
    | .ok conn =>
      let w2 := { w1 with connsOpened := w1.connsOpened + 1 }
      match getLocalPort (some conn) with
      | .error err => { err := some err, app := none, world := w2 }
      | .ok (localHost, localPort) =>
        let sess : SessionInfo := { LocalHost := localHost, LocalPort := localPort }
        let appCtx : AppContext :=
          { Conn := some conn, ContextName := c.Name, Host := c.Host, Port := c.Port,
            Session := some sess, Resumed := false }
        if !resumed then
          let r := saveSessionInfo sess c w2
          { err := r.1, app := some appCtx, world := r.2 }
        else
          { err := none, app := some appCtx, world := w2 }

/-- `canInfoCmd.RunE` for the parsed argument `netid`, with the events the
loop receives before `ctx.Done()` fires: the returned error, or what was
printed. -/
def canInfoCmd (k : Z21Consts) (app : Option AppContext) (netid : Nat)
    (events : List Event) : Except String InfoOutput :=
  match app.bind (·.Conn) with
  | none => .error "Z21 connection not initialized"
  | some conn =>
    match Req conn (.canDetector
        { NetworkID := netid, Address := 0, Port := 0, Typ := 0, Value1 := 0 }) with
    | .error err => .error err
    | .ok _ => .ok (printCanDeviceInfo k (canInfoFold k events))

/-- `canDiscoverCmd.RunE` with the events the loop receives before
`ctx.Done()` fires: the returned error, or the device map handed to
`printCanDevices`. -/
def canDiscoverCmd (k : Z21Consts) (app : Option AppContext) (events : List Event) :
    Except String DeviceMap :=
  match app.bind (·.Conn) with
  | none => .error "Z21 connection not initialized"
  | some conn =>
    match Req conn (.canDetector
        { NetworkID := k.CAN_BROADCAST_NID, Address := 0, Port := 0, Typ := 0,
          Value1 := 0 }) with
    | .error err => .error err
    | .ok _ => .ok (canDiscoverFold k events)

/-- `contextResetCmd.RunE`: the returned error and the world afterwards. -/
def contextResetRunE (app : Option AppContext) (w : World) : Option String × World :=
  match app.bind (·.Conn) with
  | none => (some "Z21 connection not initialized", w)
  | some conn =>
    match Req conn .logoff with
    | .error err => (some err, w)
    | .ok _ =>
      match loadContexts w with
      | .error err => (some err, w)
      | .ok store =>
        if store.Current = "" then (none, w)
        else
          let newContexts := store.Contexts.map fun c =>
            if c.Name = store.Current then { c with Session := none } else c
          saveContexts { store with Contexts := newContexts } w

/-- `CloseAppContext(cmd)`: closes the connection of the stored `AppContext`.
(Without a stored context `GetAppContext` panics; that does not arise after a
successful `InitAppContext`, and the world is returned as it is.) -/
def CloseAppContext (app : Option AppContext) (w : World) : World :=
  match app.bind (·.Conn) with
  | some _ => { w with connsClosed := w.connsClosed + 1 }
  | none => w

/-- Execution of a subcommand of `rootCmd` with body `runE` (root.go 32-46):
cobra runs `PersistentPreRunE` (`InitAppContext`), then `RunE`, then
`PersistentPostRun` (`CloseAppContext`), and stops at the first hook that
returns an error; `Execute` then prints the error and exits. -/
def rootExecute (net : Network) (w : World)
    (runE : Option AppContext → World → Option String × World) : Option String × World :=
  let r := InitAppContext net w
  match r.err with
  | some err => (some err, r.world)
  | none =>
    match runE r.app r.world with
    | (some err, w1) => (some err, w1)
    | (none, w1) => (none, CloseAppContext r.app w1)

/-! ## `context.go`: the commands `add`, `use`, `rm` -/

/-- One step of decoding the bytes of a Go string as UTF-8: a character, or a
byte that starts no valid encoding. -/
inductive GoUnit where
  | rune (c : Char)
  | invalid (byte : Nat)
deriving DecidableEq, Repr

/-- A Go string that need not be valid UTF-8, such as a command-line argument
(`args[0]`, `--host`): the list of its decoding steps. Two Go strings are equal
exactly when their decodings are. -/
abbrev GoString := List GoUnit

/-- The Go string with the bytes of a valid string. -/
def GoString.ofString (s : String) : GoString :=
  s.toList.map GoUnit.rune

/-- The string a Go string comes back as after `json.MarshalIndent` and
`json.Unmarshal` (`saveContexts`, then `loadContexts`): every byte that is not
valid UTF-8 is written as U+FFFD, every character as itself. -/
def jsonString (g : GoString) : String :=
  String.mk (g.map fun u =>
    match u with
    | .rune c => c
    | .invalid _ => Char.ofNat 65533)

/-- The text `%q` prints for a Go string: the characters between double
quotes, an invalid byte as a backslash, `x` and two hexadecimal digits. -/
def goQuote (g : GoString) : String :=
  "\"" ++ String.join (g.map fun u =>
    match u with
    | .rune c => String.mk [c]
    | .invalid b => "\\x" ++ String.mk [Nat.digitChar (b / 16 % 16), Nat.digitChar (b % 16)])
  ++ "\""

/-- `contextAddCmd.RunE` for `NAME`, `--host` and `--port`. The stores of this
model hold their strings as they are read back from the file; the raw `name`
and `host` that the command appends reach the file through
`json.MarshalIndent` in `saveContexts`, so they enter the store as
`jsonString name` and `jsonString host`, while the test for an existing name
compares the raw `name`. -/
def contextAddCmd (name host : GoString) (port : Int) (w : World) : Option String × World :=
  match loadContexts w with
  | .error err => (some err, w)
  | .ok store =>
    if store.Contexts.any (fun c => GoString.ofString c.Name = name) then
      (some ("context " ++ goQuote name ++ " already exists"), w)
    else
      let host := if host = [] then GoString.ofString "127.0.0.1" else host
      let port := if port = 0 then 21105 else port
      let contexts := store.Contexts ++
        [{ Name := jsonString name, Host := jsonString host, Port := port, Session := none }]
      let current := if contexts.length = 1 then jsonString name else store.Current
      saveContexts { Current := current, Contexts := contexts } w

/-- `contextUseCmd.RunE` for `NAME` (written back through `jsonString`, as in
`contextAddCmd`). -/
def contextUseCmd (name : GoString) (w : World) : Option String × World :=
  match loadContexts w with
  | .error err => (some err, w)
  | .ok store =>
    if store.Contexts.any (fun c => GoString.ofString c.Name = name) then
      saveContexts { store with Current := jsonString name } w
    else (some ("context " ++ goQuote name ++ " not found"), w)

/-- `contextRmCmd.RunE` for `NAME`. -/
def contextRmCmd (name : GoString) (w : World) : Option String × World :=
  match loadContexts w with
  | .error err => (some err, w)
  | .ok store =>
    let newContexts :=
      store.Contexts.filter (fun c => !decide (GoString.ofString c.Name = name))
    if store.Contexts.any (fun c => GoString.ofString c.Name = name) then
      let current := if GoString.ofString store.Current = name then "" else store.Current
      saveContexts { Current := current, Contexts := newContexts } w
    else (some ("context " ++ goQuote name ++ " not found"), w)

/-! ### Invariants of the profile store (statement side) -/

/-- The profile names of the stored contexts are pairwise distinct. -/
def NamesUnique (w : World) : Prop :=
  ∀ store, loadContexts w = .ok store → (store.Contexts.map (·.Name)).Nodup

/-- The current selection is empty or the name of a stored profile. -/
def CurrentValid (w : World) : Prop :=
  ∀ store, loadContexts w = .ok store →
    store.Current = "" ∨ ∃ c ∈ store.Contexts, c.Name = store.Current

/-! ### Reading a range string back (statement side) -/

/-- The number written by a list of decimal digits. -/
def parseDecimal (cs : List Char) : Nat :=
  cs.foldl (fun n c => n * 10 + (c.toNat - 48)) 0

/-- The zero-based indices of one piece: `"a"` gives `a - 1`, and `"a-b"` gives
`a - 1, a, ..., b - 1`. -/
def parsePiece (cs : List Char) : List Nat :=
  match cs.splitOn '-' with
  | [a] => [parseDecimal a - 1]
  | [a, b] =>
    (List.range' (parseDecimal a) (parseDecimal b + 1 - parseDecimal a)).map (· - 1)
  | _ => []

/-- The indices a range string stands for: split on commas, expand every
piece, subtract one from every number, and concatenate in order. -/
def parseRanges (s : String) : List Nat :=
  ((s.toList.splitOn ',').map parsePiece).flatten

/-! ## Example inputs -/

/-- A connection on local port 21106 that answers every request with `reply`. -/
def exampleConn (reply : Except String (Option Event)) : Conn :=
  { sendRcv := fun _ => reply, localEndpoint := .ok ("0.0.0.0", 21106) }

/-- The application context of a command connected through `exampleConn`. -/
def exampleApp (reply : Except String (Option Event)) : AppContext :=
  { Conn := some (exampleConn reply), ContextName := "layout", Host := "192.168.0.111",
    Port := 21105, Session := some { LocalHost := "0.0.0.0", LocalPort := 21106 },
    Resumed := false }

/-- A store with the current profile `layout`, holding the given session, and
a second profile `club` with a session of its own. -/
def exampleStore (session : Option SessionInfo) : ContextStore :=
  { Current := "layout",
    Contexts :=
      [{ Name := "layout", Host := "192.168.0.111", Port := 21105, Session := session },
       { Name := "club", Host := "10.0.0.5", Port := 21105,
         Session := some { LocalHost := "0.0.0.0", LocalPort := 40000 } }] }

/-- A world whose context file holds `exampleStore session`, on a writable
disk, before any connection was made. -/
def exampleWorld (session : Option SessionInfo) : World :=
  { file := .content (exampleStore session), diskWritable := true, writes := [],
    dials := [], connsOpened := 0, connsClosed := 0 }

/-- A world without context file, on a writable disk. -/
def emptyWorld : World :=
  { file := .missing, diskWritable := true, writes := [], dials := [],
    connsOpened := 0, connsClosed := 0 }

/-- A network where a dialer without local address is given the ephemeral port
50123, and a dialer asking for a local port gets it when `bindOk`, and the
error "bind: address already in use" otherwise. -/
def exampleNet (bindOk : Bool) : Network :=
  { connect := fun _ dialer =>
      match dialer.LocalAddr with
      | none =>
        .ok { sendRcv := fun _ => .ok none, localEndpoint := .ok ("0.0.0.0", 50123) }
      | some addr =>
        if bindOk then
          .ok { sendRcv := fun _ => .ok none, localEndpoint := .ok ("0.0.0.0", addr.Port) }
        else .error "bind: address already in use" }

/-! # Theorems -/

/-! ### Lemmas on the loop -/

theorem runsFrom_head (start prev : Nat) (rest : List Nat) :
    ∃ last t, runsFrom start prev rest = (start, last) :: t := by
  induction rest generalizing prev with
  | nil => exact ⟨prev, [], rfl⟩
  | cons n rest ih =>
    unfold runsFrom
    split
    · exact ih n
    · exact ⟨prev, _, rfl⟩

theorem runsFrom_ordered (start prev : Nat) (rest : List Nat) (h : start ≤ prev) :
    ∀ r ∈ runsFrom start prev rest, r.1 ≤ r.2 := by
  induction rest generalizing start prev with
  | nil => intro r hr; simp [runsFrom] at hr; subst hr; exact h
  | cons n rest ih =>
    intro r hr
    unfold runsFrom at hr
    split at hr
    · next hn => exact ih start n (by omega) r hr
    · rcases List.mem_cons.1 hr with rfl | hr
      · exact h
      · exact ih n n le_rfl r hr

theorem runIndices_extend (start prev : Nat) (h : start ≤ prev) :
    runIndices (start, prev + 1) = runIndices (start, prev) ++ [prev + 1] := by
  unfold runIndices
  have e : prev + 1 + 1 - start = (prev + 1 - start) + 1 := by omega
  simp only [e, List.range'_concat]
  congr 2
  omega

theorem runsFrom_covers (start prev : Nat) (rest : List Nat) (h : start ≤ prev) :
    ((runsFrom start prev rest).map runIndices).flatten
      = runIndices (start, prev) ++ rest := by
  induction rest generalizing start prev with
  | nil => simp [runsFrom]
  | cons n rest ih =>
    unfold runsFrom
    split
    · next hn =>
      subst hn
      rw [ih start (prev + 1) (by omega), runIndices_extend start prev h]
      simp
    · rw [List.map_cons, List.flatten_cons, ih n n le_rfl]
      simp [runIndices]

theorem runsFrom_maximal (start prev : Nat) (rest : List Nat) :
    (runsFrom start prev rest).Chain' (fun r s => s.1 ≠ r.2 + 1) := by
  induction rest generalizing start prev with
  | nil => simp [runsFrom]
  | cons n rest ih =>
    unfold runsFrom
    split
    · exact ih start n
    · next hn =>
      obtain ⟨last, t, ht⟩ := runsFrom_head n n rest
      have := ih n n
      rw [ht] at this ⊢
      exact List.Chain'.cons hn this

theorem runsFrom_isMaximalRuns (first : Nat) (rest : List Nat) :
    IsMaximalRuns (runsFrom first first rest) (first :: rest) where
  ordered := runsFrom_ordered first first rest le_rfl
  covers := by rw [runsFrom_covers first first rest le_rfl]; simp [runIndices]
  maximal := runsFrom_maximal first first rest

theorem runIndices_eq_cons (r : Nat × Nat) (h : r.1 ≤ r.2) :
    runIndices r = r.1 :: List.range' (r.1 + 1) (r.2 - r.1) := by
  unfold runIndices
  have e : r.2 + 1 - r.1 = (r.2 - r.1) + 1 := by omega
  rw [e, List.range'_succ]

theorem runIndices_split (a b c : Nat) (hab : a ≤ b) (hbc : b < c) :
    runIndices (a, c) = runIndices (a, b) ++ (b + 1) :: List.range' (b + 2) (c - b - 1) := by
  unfold runIndices
  have e : c + 1 - a = ((c - b - 1) + 1) + (b + 1 - a) := by omega
  have e2 : a + (b + 1 - a) = b + 1 := by omega
  show List.range' a (c + 1 - a) = List.range' a (b + 1 - a) ++ _
  rw [e, ← List.range'_append_1, e2, List.range'_succ]

theorem IsMaximalRuns.tail {r : Nat × Nat} {t : List (Nat × Nat)} {idx : List Nat}
    (h : IsMaximalRuns (r :: t) idx) :
    IsMaximalRuns t ((t.map runIndices).flatten) where
  ordered := fun x hx => h.ordered x (List.mem_cons_of_mem _ hx)
  covers := rfl
  maximal := h.maximal.tail

/-- The first run of a decomposition cannot be a strict prefix of the first run
of another decomposition of the same list. -/
theorem IsMaximalRuns.last_not_lt {a b c : Nat} {t u : List (Nat × Nat)} {idx : List Nat}
    (h : IsMaximalRuns ((a, b) :: t) idx) (k : IsMaximalRuns ((a, c) :: u) idx) :
    ¬ b < c := by
  intro hbc
  have hab : a ≤ b := h.ordered (a, b) (List.mem_cons_self _ _)
  have e := h.covers.trans k.covers.symm
  simp only [List.map_cons, List.flatten_cons] at e
  rw [runIndices_split a b c hab hbc, List.append_assoc] at e
  have e2 := List.append_cancel_left e
  cases t with
  | nil => simp at e2
  | cons r t =>
    have hr : r.1 ≤ r.2 := h.ordered r (by simp)
    simp only [List.map_cons, List.flatten_cons, runIndices_eq_cons r hr,
      List.cons_append] at e2
    have h1 : r.1 = b + 1 := (List.cons.inj e2).1
    have hm := h.maximal
    rw [List.chain'_cons] at hm
    exact hm.1 h1

/-- A list has at most one decomposition into maximal runs. -/
theorem IsMaximalRuns.unique {rs rs2 : List (Nat × Nat)} {idx : List Nat}
    (h : IsMaximalRuns rs idx) (k : IsMaximalRuns rs2 idx) : rs2 = rs := by
  induction rs generalizing rs2 idx with
  | nil =>
    cases rs2 with
    | nil => rfl
    | cons r u =>
      have e := k.covers.trans h.covers.symm
      have hr : r.1 ≤ r.2 := k.ordered r (by simp)
      simp [runIndices_eq_cons r hr] at e
  | cons r t ih =>
    have hr : r.1 ≤ r.2 := h.ordered r (by simp)
    cases rs2 with
    | nil =>
      have e := h.covers.trans k.covers.symm
      simp [runIndices_eq_cons r hr] at e
    | cons q u =>
      have hq : q.1 ≤ q.2 := k.ordered q (by simp)
      have e := h.covers.trans k.covers.symm
      simp only [List.map_cons, List.flatten_cons] at e
      have e1 : r.1 = q.1 := by
        have e3 := e
        rw [runIndices_eq_cons r hr, runIndices_eq_cons q hq] at e3
        exact (List.cons.inj e3).1
      obtain ⟨a, b⟩ := r
      obtain ⟨a2, c⟩ := q
      simp only at e1
      subst e1
      have hbc : b = c := by
        have n1 := h.last_not_lt k
        have n2 := k.last_not_lt h
        omega
      subst hbc
      have e4 := List.append_cancel_left e
      have := ih h.tail (e4 ▸ k.tail)
      rw [this]

theorem runsFrom_bound (N start prev : Nat) (rest : List Nat)
    (hs : start < N) (hp : prev < N) (hr : ∀ i ∈ rest, i < N) :
    ∀ r ∈ runsFrom start prev rest, r.1 < N ∧ r.2 < N := by
  induction rest generalizing start prev with
  | nil => intro r hm; simp [runsFrom] at hm; subst hm; exact ⟨hs, hp⟩
  | cons n rest ih =>
    have hn : n < N := hr n (by simp)
    have hrest : ∀ i ∈ rest, i < N := fun i hi => hr i (List.mem_cons_of_mem _ hi)
    intro r hm
    unfold runsFrom at hm
    split at hm
    · exact ih start n hs hn hrest r hm
    · rcases List.mem_cons.1 hm with rfl | hm
      · exact ⟨hs, hp⟩
      · exact ih n n hn hn hrest r hm

theorem formatRange_eq_renderRun (r : Nat × Nat) (h1 : r.1 < 255) (h2 : r.2 < 255) :
    formatRange r.1 r.2 = renderRun r := by
  unfold formatRange renderRun
  have e1 : (r.1 + 1) % 256 = r.1 + 1 := Nat.mod_eq_of_lt (by omega)
  have e2 : (r.2 + 1) % 256 = r.2 + 1 := Nat.mod_eq_of_lt (by omega)
  simp only [e1, e2, Nat.add_right_cancel_iff]

theorem formatPortsAsRangeLoop_eq (parts : List String) (start prev : Nat)
    (ports : List DetectorPort) (hp : prev < 255) (hr : ∀ p ∈ ports, p.Index < 255) :
    formatPortsAsRangeLoop parts start prev ports
      = parts ++ (runsFrom start prev (ports.map (·.Index))).map
          (fun r => formatRange r.1 r.2) := by
  induction ports generalizing parts start prev with
  | nil => simp [formatPortsAsRangeLoop, runsFrom]
  | cons n rest ih =>
    have hn : n.Index < 255 := hr n (by simp)
    have hrest : ∀ p ∈ rest, p.Index < 255 := fun p hp => hr p (List.mem_cons_of_mem _ hp)
    have e : (prev + 1) % 256 = prev + 1 := Nat.mod_eq_of_lt (by omega)
    simp only [formatPortsAsRangeLoop, List.map_cons, runsFrom, e]
    split
    · exact ih parts start n.Index hn hrest
    · rw [ih _ n.Index n.Index hn hrest]
      simp

/-- In a strictly ascending list the maximal runs are separated by gaps. -/
theorem IsMaximalRuns.separated {rs : List (Nat × Nat)} {idx : List Nat}
    (h : IsMaximalRuns rs idx) (hasc : idx.Chain' (· < ·)) :
    rs.Chain' (fun r s => r.2 + 1 < s.1) := by
  induction rs generalizing idx with
  | nil => simp
  | cons r t ih =>
    have hcov := h.covers
    simp only [List.map_cons, List.flatten_cons] at hcov
    have hasc2 : ((t.map runIndices).flatten).Chain' (· < ·) := by
      rw [← hcov] at hasc
      exact hasc.right_of_append
    have ht := ih h.tail hasc2
    cases t with
    | nil => simp
    | cons q u =>
      refine List.Chain'.cons ?_ ht
      have hr : r.1 ≤ r.2 := h.ordered r (by simp)
      have hq : q.1 ≤ q.2 := h.ordered q (by simp)
      have hne : q.1 ≠ r.2 + 1 := by
        have hm := h.maximal
        rw [List.chain'_cons] at hm
        exact hm.1
      have hlt : r.2 < q.1 := by
        rw [← hcov] at hasc
        have hx : r.2 ∈ (runIndices r).getLast? := by
          unfold runIndices
          have e : r.2 + 1 - r.1 = (r.2 - r.1) + 1 := by omega
          rw [e, List.range'_concat]
          simp
          omega
        have hy : q.1 ∈ (((q :: u).map runIndices).flatten).head? := by
          simp [runIndices_eq_cons q hq]
        exact (List.chain'_append.1 hasc).2.2 r.2 hx q.1 hy
      omega

/-! ## Port ranges -/

/-- C1: for every strictly ascending sequence of port indices, all below 255,
`formatPortsAsRange` returns the comma-joined renderings, in order, of the
maximal runs of consecutive indices of the sequence (the unique decomposition
`rs` of the index list into non-empty runs none of which continues its
predecessor; its runs are separated by gaps), each run rendered 1-based as
`"a"` when it holds one index and as `"a-b"` otherwise; and the ports
`[0,1,2,5,6,9]` give `"1-3,6-7,10"`. -/
theorem formatPortsAsRange_maximal_runs (ports : List DetectorPort)
    (hasc : (ports.map (·.Index)).Chain' (· < ·))
    (hlt : ∀ p ∈ ports, p.Index < 255) :
    (∃ rs : List (Nat × Nat),
      IsMaximalRuns rs (ports.map (·.Index)) ∧
      (∀ rs2, IsMaximalRuns rs2 (ports.map (·.Index)) → rs2 = rs) ∧
      rs.Chain' (fun r s => r.2 + 1 < s.1) ∧
      formatPortsAsRange ports = ",".intercalate (rs.map renderRun)) ∧
    formatPortsAsRange (portsOf [0, 1, 2, 5, 6, 9]) = "1-3,6-7,10" := by
  refine ⟨?_, by decide⟩
  cases ports with
  | nil =>
    refine ⟨[], ⟨by simp, rfl, by simp⟩, ?_, by simp, rfl⟩
    intro rs2 h2
    exact IsMaximalRuns.unique ⟨by simp, rfl, by simp⟩ h2
  | cons p rest =>
    have hp : p.Index < 255 := hlt p (by simp)
    have hrest : ∀ q ∈ rest, q.Index < 255 := fun q hq => hlt q (List.mem_cons_of_mem _ hq)
    have hmax : IsMaximalRuns (runsFrom p.Index p.Index (rest.map (·.Index)))
        ((p :: rest).map (·.Index)) := runsFrom_isMaximalRuns p.Index _
    refine ⟨_, hmax, fun rs2 h2 => hmax.unique h2, hmax.separated hasc, ?_⟩
    show ",".intercalate (formatPortsAsRangeLoop [] p.Index p.Index rest) = _
    rw [formatPortsAsRangeLoop_eq [] p.Index p.Index rest hp hrest, List.nil_append]
    congr 1
    apply List.map_congr_left
    intro r hr
    have hb := runsFrom_bound 255 p.Index p.Index (rest.map (·.Index)) hp hp
      (by simpa using hrest) r hr
    exact formatRange_eq_renderRun r hb.1 hb.2

/-- C1, at the ports `[0,1,2,5,6,9]`: the maximal runs are `0..2`, `5..6` and
`9..9`, and the output is their rendering. -/
theorem formatPortsAsRange_maximal_runs_witness :
    IsMaximalRuns [(0, 2), (5, 6), (9, 9)] ((portsOf [0, 1, 2, 5, 6, 9]).map (·.Index)) ∧
    formatPortsAsRange (portsOf [0, 1, 2, 5, 6, 9])
      = ",".intercalate ([(0, 2), (5, 6), (9, 9)].map renderRun) := by
  obtain ⟨⟨rs, hrs, huniq, _, hfmt⟩, _⟩ :=
    formatPortsAsRange_maximal_runs (portsOf [0, 1, 2, 5, 6, 9])
      (by simp [portsOf]) (by decide)
  have h : IsMaximalRuns [(0, 2), (5, 6), (9, 9)]
      ((portsOf [0, 1, 2, 5, 6, 9]).map (·.Index)) :=
    ⟨by decide, by decide, by simp⟩
  have e := huniq _ h
  subst e
  exact ⟨h, hfmt⟩

/-- C2: `formatPortsAsRange` returns the empty string for the empty list and,
for a single port of index `i`, the decimal rendering of `i + 1` computed in
`uint8`; `[3]` gives `"4"`, but the index `255` gives `"0"`, which is not the
rendering of the 1-based index `256`. -/
theorem formatPortsAsRange_single_wraps :
    formatPortsAsRange [] = "" ∧
    (∀ i status : Nat,
      formatPortsAsRange [{ Index := i, Status := status }] = Nat.repr ((i + 1) % 256)) ∧
    formatPortsAsRange [{ Index := 3, Status := 0 }] = "4" ∧
    formatPortsAsRange [{ Index := 255, Status := 0 }] = "0" ∧
    formatPortsAsRange [{ Index := 255, Status := 0 }] ≠ Nat.repr (255 + 1) := by
  refine ⟨rfl, ?_, by decide, by decide, by decide⟩
  intro i status
  simp [formatPortsAsRange, formatPortsAsRangeLoop, formatRange, String.intercalate,
    String.intercalate.go]

/-! ## Discovery -/

theorem statusReports_append (k : Z21Consts) (xs ys : List Event) :
    statusReports k (xs ++ ys) = statusReports k xs ++ statusReports k ys := by
  simp [statusReports, List.filterMap_append]

theorem mem_statusReports (k : Z21Consts) (events : List Event) (v : CanDetector) :
    v ∈ statusReports k events ↔
      Event.canDetector v ∈ events ∧ v.Typ = k.CANMessageTypeStatus := by
  unfold statusReports
  rw [List.mem_filterMap]
  constructor
  · rintro ⟨e, he, hv⟩
    cases e with
    | canDetector u =>
      by_cases hu : u.Typ = k.CANMessageTypeStatus
      · simp [hu] at hv
        subst hv
        exact ⟨he, hu⟩
      · simp [hu] at hv
    | logoff => simp at hv
    | other t => simp at hv
  · rintro ⟨he, hv⟩
    exact ⟨_, he, by simp [hv]⟩

theorem countP_isStatusReportOf (k : Z21Consts) (nid : Nat) (events : List Event) :
    events.countP (isStatusReportOf k nid)
      = ((statusReports k events).filter (fun v => v.NetworkID = nid)).length := by
  induction events with
  | nil => rfl
  | cons e rest ih =>
    have hs : statusReports k (e :: rest) = statusReports k [e] ++ statusReports k rest :=
      statusReports_append k [e] rest
    rw [hs, List.filter_append, List.length_append, List.countP_cons, ih, Nat.add_comm]
    congr 1
    cases e with
    | canDetector u =>
      by_cases hu : u.Typ = k.CANMessageTypeStatus <;>
        by_cases hn : u.NetworkID = nid <;>
        simp [statusReports, isStatusReportOf, hu, hn]
    | logoff => simp [statusReports, isStatusReportOf]
    | other t => simp [statusReports, isStatusReportOf]

theorem deviceOfReports_concat (nid : Nat) (reports : List CanDetector) (v : CanDetector) :
    deviceOfReports nid (reports ++ [v]) =
      if v.NetworkID = nid then
        some (match deviceOfReports nid reports with
          | some d => { d with Ports := d.Ports ++ [{ Index := v.Port, Status := 0 }] }
          | none => { NetworkID := v.NetworkID, Address := v.Address,
                      Ports := [{ Index := v.Port, Status := 0 }] })
      else deviceOfReports nid reports := by
  unfold deviceOfReports
  rw [List.filter_append]
  by_cases hv : v.NetworkID = nid
  · simp only [hv, decide_True, List.filter_cons_of_pos, List.filter_nil, if_true]
    cases reports.filter (fun v => decide (v.NetworkID = nid)) with
    | nil => simp [hv]
    | cons u us => simp
  · simp [hv]

/-- The device map of scan-all, key by key. -/
theorem canDiscoverFold_eq (k : Z21Consts) (events : List Event) (nid : Nat) :
    canDiscoverFold k events nid = deviceOfReports nid (statusReports k events) := by
  induction events using List.reverseRecOn generalizing nid with
  | nil => rfl
  | append_singleton init e ih =>
    have hfold : canDiscoverFold k (init ++ [e])
        = canDiscoverStep k (canDiscoverFold k init) e := by
      simp [canDiscoverFold, List.foldl_append]
    rw [hfold, statusReports_append]
    cases e with
    | canDetector v =>
      by_cases hv : v.Typ = k.CANMessageTypeStatus
      · have hs : statusReports k [Event.canDetector v] = [v] := by
          simp [statusReports, hv]
        rw [hs, deviceOfReports_concat]
        simp only [canDiscoverStep, hv, if_true]
        by_cases hn : v.NetworkID = nid
        · subst hn
          simp only [Function.update_same, if_true, ih]
          cases deviceOfReports v.NetworkID (statusReports k init) <;> rfl
        · have hn2 : nid ≠ v.NetworkID := fun h => hn h.symm
          simp only [Function.update_noteq hn2, hn, if_false, ih]
      · have hs : statusReports k [Event.canDetector v] = [] := by
          simp [statusReports, hv]
        simp [hs, canDiscoverStep, hv, ih]
    | logoff => simp [statusReports, canDiscoverStep, ih]
    | other t => simp [statusReports, canDiscoverStep, ih]

/-- C3: in the device map of scan-all, a network identifier is a key exactly
when some detector-status event of the sequence carries it, and the `Ports`
list of its device is as long as the number of detector-status events carrying
it; events of other kinds contribute nothing. -/
theorem canDiscoverFold_keys_and_port_counts (k : Z21Consts) (events : List Event)
    (nid : Nat) :
    ((canDiscoverFold k events nid).isSome ↔
      ∃ v, Event.canDetector v ∈ events ∧ v.Typ = k.CANMessageTypeStatus ∧
        v.NetworkID = nid) ∧
    (∀ d, canDiscoverFold k events nid = some d →
      d.Ports.length = events.countP (isStatusReportOf k nid)) := by
  rw [canDiscoverFold_eq, countP_isStatusReportOf]
  unfold deviceOfReports
  constructor
  · constructor
    · intro h
      cases hf : (statusReports k events).filter (fun v => v.NetworkID = nid) with
      | nil => simp [hf] at h
      | cons u us =>
        have hu : u ∈ (statusReports k events).filter (fun v => v.NetworkID = nid) := by
          rw [hf]; exact List.mem_cons_self _ _
        rw [List.mem_filter] at hu
        have := (mem_statusReports k events u).1 hu.1
        exact ⟨u, this.1, this.2, by simpa using hu.2⟩
    · rintro ⟨v, hv, ht, hn⟩
      have hm : v ∈ (statusReports k events).filter (fun v => v.NetworkID = nid) := by
        rw [List.mem_filter]
        exact ⟨(mem_statusReports k events v).2 ⟨hv, ht⟩, by simpa using hn⟩
      cases hf : (statusReports k events).filter (fun v => v.NetworkID = nid) with
      | nil => rw [hf] at hm; cases hm
      | cons u us => simp
  · intro d hd
    cases hf : (statusReports k events).filter (fun v => v.NetworkID = nid) with
    | nil => simp [hf] at hd
    | cons u us =>
      simp only [hf, Option.some.injEq] at hd
      subst hd
      simp

/-- C3, at a window with two reports of device 7, one of device 9 and an
event of another kind: device 7 holds two ports. -/
theorem canDiscoverFold_keys_and_port_counts_witness :
    canDiscoverFold exampleConsts
        [exampleReport 7 1 0 0, .other 4, exampleReport 9 2 5 0, exampleReport 7 1 0 0] 7
      = some { NetworkID := 7, Address := 1,
               Ports := [{ Index := 0, Status := 0 }, { Index := 0, Status := 0 }] } ∧
    ([{ Index := 0, Status := 0 }, { Index := 0, Status := 0 }] : List DetectorPort).length
      = [exampleReport 7 1 0 0, .other 4, exampleReport 9 2 5 0,
          exampleReport 7 1 0 0].countP (isStatusReportOf exampleConsts 7) :=
  ⟨by decide,
   (canDiscoverFold_keys_and_port_counts exampleConsts
      [exampleReport 7 1 0 0, .other 4, exampleReport 9 2 5 0, exampleReport 7 1 0 0] 7).2
      { NetworkID := 7, Address := 1,
        Ports := [{ Index := 0, Status := 0 }, { Index := 0, Status := 0 }] } (by decide)⟩

/-- The record of scan-one after any event sequence. -/
theorem canInfoFold_eq (k : Z21Consts) (events : List Event) :
    canInfoFold k events = deviceOfAllReports (statusReports k events) := by
  induction events using List.reverseRecOn with
  | nil => rfl
  | append_singleton init e ih =>
    have hfold : canInfoFold k (init ++ [e]) = canInfoStep k (canInfoFold k init) e := by
      simp [canInfoFold, List.foldl_append]
    rw [hfold, statusReports_append, ih]
    cases e with
    | canDetector v =>
      by_cases hv : v.Typ = k.CANMessageTypeStatus
      · have hs : statusReports k [Event.canDetector v] = [v] := by
          simp [statusReports, hv]
        rw [hs]
        simp only [canInfoStep, hv, if_true]
        cases statusReports k init with
        | nil => rfl
        | cons u us => simp [deviceOfAllReports]
      · have hs : statusReports k [Event.canDetector v] = [] := by
          simp [statusReports, hv]
        simp [hs, canInfoStep, hv]
    | logoff => simp [statusReports, canInfoStep]
    | other t => simp [statusReports, canInfoStep]

/-- C4 (as amended): once the trigger request of scan-one has returned without
error, the command prints "not found" exactly when the event sequence holds no
detector-status report at all, whatever network identifier was requested. -/
theorem canInfoCmd_notFound_iff (k : Z21Consts) (app : Option AppContext) (netid : Nat)
    (events : List Event) (conn : Conn) (r : Option Event)
    (happ : app.bind (·.Conn) = some conn)
    (hreq : Req conn (.canDetector
      { NetworkID := netid, Address := 0, Port := 0, Typ := 0, Value1 := 0 }) = .ok r) :
    canInfoCmd k app netid events = .ok .notFound ↔
      ∀ v, Event.canDetector v ∈ events → v.Typ ≠ k.CANMessageTypeStatus := by
  have hcmd : canInfoCmd k app netid events
      = .ok (printCanDeviceInfo k (canInfoFold k events)) := by
    simp only [canInfoCmd, happ, hreq]
  rw [hcmd, canInfoFold_eq]
  constructor
  · intro h v hv ht
    have hm : v ∈ statusReports k events := (mem_statusReports k events v).2 ⟨hv, ht⟩
    cases hs : statusReports k events with
    | nil => rw [hs] at hm; cases hm
    | cons u us => simp [hs, deviceOfAllReports, printCanDeviceInfo] at h
  · intro h
    have hs : statusReports k events = [] := by
      apply List.eq_nil_iff_forall_not_mem.2
      intro v hv
      have := (mem_statusReports k events v).1 hv
      exact h v this.1 this.2
    simp [hs, deviceOfAllReports, printCanDeviceInfo]

/-- C4 (as amended), at a window holding only an event of another kind. -/
theorem canInfoCmd_notFound_iff_witness :
    canInfoCmd exampleConsts (some (exampleApp (.ok none))) 1 [.other 4] = .ok .notFound :=
  (canInfoCmd_notFound_iff exampleConsts (some (exampleApp (.ok none))) 1 [.other 4]
    (exampleConn (.ok none)) none rfl rfl).2 (by simp)

/-- C4 fails as stated: scan-one for network identifier 1 receives a single
detector-status report, of device 2; no report carries identifier 1, yet the
command prints the record of device 2 instead of "not found". -/
theorem canInfoCmd_reports_other_device :
    (∀ v, Event.canDetector v ∈ [exampleReport 2 5 3 4352] → v.NetworkID ≠ 1) ∧
    canInfoCmd exampleConsts (some (exampleApp (.ok none))) 1 [exampleReport 2 5 3 4352]
      = .ok (.device 2 5 [("4", "busy")]) ∧
    canInfoCmd exampleConsts (some (exampleApp (.ok none))) 1 [exampleReport 2 5 3 4352]
      ≠ .ok .notFound := by
  have h : canInfoCmd exampleConsts (some (exampleApp (.ok none))) 1
      [exampleReport 2 5 3 4352] = .ok (.device 2 5 [("4", "busy")]) := rfl
  refine ⟨?_, h, ?_⟩
  · intro v hv
    simp [exampleReport] at hv
    subst hv
    decide
  · rw [h]
    intro hc
    cases hc

/-- C5: for the same detector-status report (device 2, port 3, value 0x1100),
scan-one appends the port entry with index 3 and status 0x1100, while scan-all
appends the entry with index 3 and status 0: the status value is dropped. -/
theorem canDiscoverFold_drops_status :
    canInfoFold exampleConsts [exampleReport 2 5 3 4352]
      = some { NetworkID := 2, Address := 5, Ports := [{ Index := 3, Status := 4352 }] } ∧
    canDiscoverFold exampleConsts [exampleReport 2 5 3 4352] 2
      = some { NetworkID := 2, Address := 5, Ports := [{ Index := 3, Status := 0 }] } := by
  decide

/-! ## Session resumption -/

theorem sessionDialer_resumed_iff (session : Option SessionInfo) :
    (sessionDialer session).2 = true ↔ ∃ s, session = some s ∧ 0 < s.LocalPort := by
  cases session with
  | none => simp [sessionDialer]
  | some s =>
    by_cases h : s.LocalPort > 0
    · simp [sessionDialer, h]
    · simp [sessionDialer, h]

theorem sessionDialer_localAddr (session : Option SessionInfo) :
    (sessionDialer session).1.LocalAddr =
      match session with
      | some s => if 0 < s.LocalPort then some { IP := "0.0.0.0", Port := s.LocalPort } else none
      | none => none := by
  cases session with
  | none => rfl
  | some s =>
    by_cases h : s.LocalPort > 0
    · simp [sessionDialer, h]
    · simp [sessionDialer, h]

theorem saveContexts_dials (store : ContextStore) (w : World) :
    (saveContexts store w).2.dials = w.dials := by
  unfold saveContexts
  split <;> rfl

theorem saveSessionInfo_dials (sess : SessionInfo) (ctx : ContextInfo) (w : World) :
    (saveSessionInfo sess ctx w).2.dials = w.dials := by
  unfold saveSessionInfo
  split
  · rfl
  · split
    · rfl
    · exact saveContexts_dials _ _

theorem InitAppContext_dials (net : Network) (w : World) (c : ContextInfo)
    (hc : loadCurrentContext w = .ok c) :
    (InitAppContext net w).world.dials
      = w.dials ++ [(c.Host, (sessionDialer c.Session).1)] := by
  simp only [InitAppContext, hc]
  cases hconn : net.connect c.Host (sessionDialer c.Session).1 with
  | error err => rfl
  | ok conn =>
    simp only [getLocalPort]
    cases hep : conn.localEndpoint with
    | error err => rfl
    | ok ep =>
      obtain ⟨localHost, localPort⟩ := ep
      cases hr : (sessionDialer c.Session).2 with
      | true => simp
      | false => simp [saveSessionInfo_dials]

/-- C6: `InitAppContext` sets `resumed` exactly when the current profile has a
stored session whose `LocalPort` is positive; in that case the dialer handed
to `z21.Connect` binds the local port `LocalPort` (on `0.0.0.0`), and in every
other case (no session, or `LocalPort <= 0`) the dialer names no local address,
which leaves the choice of the port to the network stack. -/
theorem InitAppContext_resume_iff (net : Network) (w : World) (c : ContextInfo)
    (hc : loadCurrentContext w = .ok c) :
    ((sessionDialer c.Session).2 = true ↔ ∃ s, c.Session = some s ∧ 0 < s.LocalPort) ∧
    (∃ dialer, (InitAppContext net w).world.dials = w.dials ++ [(c.Host, dialer)] ∧
      (∀ s, c.Session = some s → 0 < s.LocalPort →
        dialer.LocalAddr = some { IP := "0.0.0.0", Port := s.LocalPort }) ∧
      (c.Session = none → dialer.LocalAddr = none) ∧
      (∀ s, c.Session = some s → s.LocalPort ≤ 0 → dialer.LocalAddr = none)) := by
  refine ⟨sessionDialer_resumed_iff c.Session, _, InitAppContext_dials net w c hc, ?_, ?_, ?_⟩
  · intro s hs hpos
    rw [sessionDialer_localAddr, hs]
    simp [hpos]
  · intro hs
    rw [sessionDialer_localAddr, hs]
  · intro s hs hle
    rw [sessionDialer_localAddr, hs]
    have : ¬ 0 < s.LocalPort := by omega
    simp [this]

/-- C6, at a profile with the stored session `0.0.0.0:21106`: the connection
is dialled once, from local port 21106. -/
theorem InitAppContext_resume_iff_witness :
    loadCurrentContext (exampleWorld (some { LocalHost := "0.0.0.0", LocalPort := 21106 }))
      = .ok { Name := "layout", Host := "192.168.0.111", Port := 21105,
              Session := some { LocalHost := "0.0.0.0", LocalPort := 21106 } } ∧
    (InitAppContext (exampleNet true)
        (exampleWorld (some { LocalHost := "0.0.0.0", LocalPort := 21106 }))).world.dials
      = [("192.168.0.111", { LocalAddr := some { IP := "0.0.0.0", Port := 21106 } })] := by
  obtain ⟨_, dialer, hd, hres, _, _⟩ := InitAppContext_resume_iff (exampleNet true)
    (exampleWorld (some { LocalHost := "0.0.0.0", LocalPort := 21106 }))
    { Name := "layout", Host := "192.168.0.111", Port := 21105,
      Session := some { LocalHost := "0.0.0.0", LocalPort := 21106 } } rfl
  refine ⟨rfl, ?_⟩
  have ha := hres { LocalHost := "0.0.0.0", LocalPort := 21106 } rfl (by decide)
  rw [hd]
  cases dialer with
  | mk addr =>
    simp only at ha
    subst ha
    rfl

theorem find_setSessionOfFirst (name : String) (sess : SessionInfo)
    (l : List ContextInfo) (c : ContextInfo)
    (h : l.find? (fun x => x.Name = name) = some c) :
    c.Name = name ∧ ∃ pre post, l = pre ++ c :: post ∧ (∀ x ∈ pre, x.Name ≠ name) ∧
      setSessionOfFirst name sess l = some (pre ++ { c with Session := some sess } :: post) := by
  induction l with
  | nil => simp at h
  | cons x xs ih =>
    by_cases hx : x.Name = name
    · simp [List.find?, hx] at h
      subst h
      exact ⟨hx, [], xs, rfl, by simp, by simp [setSessionOfFirst, hx]⟩
    · simp [List.find?, hx] at h
      obtain ⟨hc, pre, post, hl, hpre, hset⟩ := ih h
      refine ⟨hc, x :: pre, post, by simp [hl], ?_, ?_⟩
      · intro y hy
        rcases List.mem_cons.1 hy with rfl | hy
        · exact hx
        · exact hpre y hy
      · simp [setSessionOfFirst, hx, hset]

theorem loadCurrentContext_ok (w : World) (c : ContextInfo)
    (hc : loadCurrentContext w = .ok c) :
    ∃ store, w.file = .content store ∧ store.Current ≠ "" ∧
      store.Contexts.find? (fun x => x.Name = store.Current) = some c := by
  unfold loadCurrentContext loadContexts at hc
  cases hf : w.file with
  | missing => simp [hf] at hc
  | broken e => simp [hf] at hc
  | content store =>
    refine ⟨store, rfl, ?_⟩
    simp only [hf] at hc
    by_cases hcur : store.Current = ""
    · simp [hcur] at hc
    · simp only [hcur, if_false] at hc
      refine ⟨hcur, ?_⟩
      cases hfind : store.Contexts.find? (fun x => x.Name = store.Current) with
      | none => simp [hfind] at hc
      | some d =>
        simp only [hfind] at hc
        injection hc with hc
        rw [hc]

/-- C7: when `z21.Connect`, the read-back of the local endpoint and the write
of the context file succeed, `InitAppContext` returns no error and rewrites
the profile store exactly on the fresh path: on the resume path (stored
session with positive `LocalPort`) the file is as before and nothing was
written; on the fresh path one store was written, in which the current profile
(the first one of that name) carries exactly the host and port read back from
the connection, while the profiles before and after it and `Current` are as
before. -/
theorem InitAppContext_store_effect (net : Network) (w : World) (c : ContextInfo)
    (conn : Conn) (localHost : String) (localPort : Int)
    (hc : loadCurrentContext w = .ok c)
    (hconn : net.connect c.Host (sessionDialer c.Session).1 = .ok conn)
    (hep : conn.localEndpoint = .ok (localHost, localPort))
    (hdisk : w.diskWritable = true) :
    (InitAppContext net w).err = none ∧
    ∃ store, w.file = .content store ∧
      (((∃ s, c.Session = some s ∧ 0 < s.LocalPort) ∧
          (InitAppContext net w).world.file = w.file ∧
          (InitAppContext net w).world.writes = w.writes) ∨
       ((¬ ∃ s, c.Session = some s ∧ 0 < s.LocalPort) ∧
          ∃ pre post, store.Contexts = pre ++ c :: post ∧ (∀ x ∈ pre, x.Name ≠ c.Name) ∧
            (InitAppContext net w).world.file = .content
              { Current := store.Current,
                Contexts := pre ++ { c with Session := some ⟨localHost, localPort⟩ } :: post } ∧
            (InitAppContext net w).world.writes = w.writes ++
              [{ Current := store.Current,
                 Contexts := pre ++ { c with Session := some ⟨localHost, localPort⟩ } :: post }])) := by
  obtain ⟨store, hfile, _, hfind⟩ := loadCurrentContext_ok w c hc
  obtain ⟨hname, pre, post, hl, hpre, hset⟩ := find_setSessionOfFirst store.Current
    { LocalHost := localHost, LocalPort := localPort } store.Contexts c hfind
  cases hr : (sessionDialer c.Session).2 with
  | true =>
    have hres := (sessionDialer_resumed_iff c.Session).1 hr
    have herr : (InitAppContext net w).err = none := by
      simp [InitAppContext, hc, hconn, getLocalPort, hep, hr]
    have hworld : (InitAppContext net w).world
        = { w with dials := w.dials ++ [(c.Host, (sessionDialer c.Session).1)],
                   connsOpened := w.connsOpened + 1 } := by
      simp [InitAppContext, hc, hconn, getLocalPort, hep, hr]
    refine ⟨herr, store, hfile, Or.inl ⟨hres, ?_, ?_⟩⟩ <;> rw [hworld]
  | false =>
    have hres : ¬ ∃ s, c.Session = some s ∧ 0 < s.LocalPort := by
      intro h
      have := (sessionDialer_resumed_iff c.Session).2 h
      rw [hr] at this
      cases this
    rw [← hname] at hset hpre
    obtain ⟨store2, hstore2⟩ : ∃ s2 : ContextStore, s2 =
        { Current := store.Current,
          Contexts := pre ++ { c with Session := some ⟨localHost, localPort⟩ } :: post } :=
      ⟨_, rfl⟩
    have hsave : ∀ w2 : World, w2.file = w.file → w2.diskWritable = true →
        saveSessionInfo { LocalHost := localHost, LocalPort := localPort } c w2
          = (none, { w2 with file := .content store2, writes := w2.writes ++ [store2] }) := by
      intro w2 h1 h2
      simp only [saveSessionInfo, loadContexts, h1, hfile, hset, saveContexts, h2, if_true,
        hstore2]
    have hsave2 := hsave
      { w with dials := w.dials ++ [(c.Host, (sessionDialer c.Session).1)],
               connsOpened := w.connsOpened + 1 } rfl hdisk
    have herr : (InitAppContext net w).err = none := by
      simp [InitAppContext, hc, hconn, getLocalPort, hep, hr, hsave2]
    have hworld : (InitAppContext net w).world.file = .content store2 ∧
        (InitAppContext net w).world.writes = w.writes ++ [store2] := by
      simp [InitAppContext, hc, hconn, getLocalPort, hep, hr, hsave2]
    rw [hstore2] at hworld
    exact ⟨herr, store, hfile, Or.inr ⟨hres, pre, post, hl, hpre, hworld.1, hworld.2⟩⟩

/-- C7, on the fresh path: the profile `layout` has no stored session, the
connection is bound to the ephemeral port 50123, and afterwards the file holds
the same store with `0.0.0.0:50123` as the session of `layout`. -/
theorem InitAppContext_store_effect_witness :
    (InitAppContext (exampleNet true) (exampleWorld none)).err = none ∧
    (InitAppContext (exampleNet true) (exampleWorld none)).world.file
      = .content (exampleStore (some { LocalHost := "0.0.0.0", LocalPort := 50123 })) := by
  obtain ⟨herr, store, hstore, h⟩ := InitAppContext_store_effect (exampleNet true)
    (exampleWorld none)
    { Name := "layout", Host := "192.168.0.111", Port := 21105, Session := none }
    { sendRcv := fun _ => .ok none, localEndpoint := .ok ("0.0.0.0", 50123) }
    "0.0.0.0" 50123 rfl rfl rfl rfl
  refine ⟨herr, ?_⟩
  have hs : store = exampleStore none := by
    have : FileState.content (exampleStore none) = FileState.content store := hstore
    injection this with this
    exact this.symm
  subst hs
  rcases h with ⟨⟨s, hs, _⟩, _⟩ | ⟨_, pre, post, hl, hpre, hfile, _⟩
  · cases hs
  · cases pre with
    | nil =>
      simp only [exampleStore, List.nil_append, List.cons.injEq, true_and] at hl
      subst hl
      rw [hfile]
      rfl
    | cons x pre =>
      simp only [exampleStore, List.cons_append, List.cons.injEq] at hl
      exact absurd (by rw [← hl.1]) (hpre x (List.mem_cons_self _ _))

/-- C8: if `z21.Connect` fails (for instance because the stored local port
cannot be bound), `InitAppContext` returns the wrapped error, has made that
single connect attempt and no other, and leaves the context file, with the
stored session, exactly as it was: nothing is written. -/
theorem InitAppContext_connect_failure (net : Network) (w : World) (c : ContextInfo)
    (err : String)
    (hc : loadCurrentContext w = .ok c)
    (hfail : net.connect c.Host (sessionDialer c.Session).1 = .error err) :
    (InitAppContext net w).err = some ("failed to connect to Z21: " ++ err) ∧
    (InitAppContext net w).world.dials
      = w.dials ++ [(c.Host, (sessionDialer c.Session).1)] ∧
    (InitAppContext net w).world.file = w.file ∧
    (InitAppContext net w).world.writes = w.writes ∧
    (InitAppContext net w).world.connsOpened = w.connsOpened := by
  simp [InitAppContext, hc, hfail]

/-- C8, at a profile with the stored session `0.0.0.0:21106` whose port is in
use: one attempt from port 21106, an error, and the stored session is kept. -/
theorem InitAppContext_connect_failure_witness :
    (InitAppContext (exampleNet false)
        (exampleWorld (some { LocalHost := "0.0.0.0", LocalPort := 21106 }))).err
      = some "failed to connect to Z21: bind: address already in use" ∧
    (InitAppContext (exampleNet false)
        (exampleWorld (some { LocalHost := "0.0.0.0", LocalPort := 21106 }))).world.dials
      = [("192.168.0.111", { LocalAddr := some { IP := "0.0.0.0", Port := 21106 } })] ∧
    (InitAppContext (exampleNet false)
        (exampleWorld (some { LocalHost := "0.0.0.0", LocalPort := 21106 }))).world.file
      = .content (exampleStore (some { LocalHost := "0.0.0.0", LocalPort := 21106 })) := by
  have h := InitAppContext_connect_failure (exampleNet false)
    (exampleWorld (some { LocalHost := "0.0.0.0", LocalPort := 21106 }))
    { Name := "layout", Host := "192.168.0.111", Port := 21105,
      Session := some { LocalHost := "0.0.0.0", LocalPort := 21106 } }
    "bind: address already in use" rfl rfl
  exact ⟨h.1, h.2.1, h.2.2.1⟩

/-! ## Reset -/

/-- The step of `context reset` after a logoff request without error, on a
writable disk: the stored contexts are mapped, sessions of the contexts named
`Current` cleared, and the result is written. -/
theorem contextResetRunE_ok (app : Option AppContext) (w : World) (conn : Conn)
    (r : Option Event) (store : ContextStore)
    (happ : app.bind (·.Conn) = some conn)
    (hlogoff : Req conn .logoff = .ok r)
    (hfile : w.file = .content store)
    (hcur : store.Current ≠ "")
    (hdisk : w.diskWritable = true) :
    contextResetRunE app w =
      (none,
        { w with
          file := .content
            { store with Contexts := store.Contexts.map fun c =>
                if c.Name = store.Current then { c with Session := none } else c },
          writes := w.writes ++
            [{ store with Contexts := store.Contexts.map fun c =>
                if c.Name = store.Current then { c with Session := none } else c }] }) := by
  simp only [contextResetRunE, happ, hlogoff, loadContexts, hfile, hcur, if_false,
    saveContexts, hdisk, if_true]

/-- If the logoff request fails, `context reset` returns that error and the
world is as before. -/
theorem contextResetRunE_logoff_error (app : Option AppContext) (w : World) (conn : Conn)
    (err : String)
    (happ : app.bind (·.Conn) = some conn)
    (hlogoff : Req conn .logoff = .error err) :
    contextResetRunE app w = (some err, w) := by
  simp only [contextResetRunE, happ, hlogoff]

/-- C9: once the logoff request has returned without error, the reset action on
a store with a current selection (and a writable context file) returns no
error and writes a store with the same `Current` and the same profiles in the
same number and order, each with the name, host and port it had; the session
of a profile is absent when its name is `Current` and as before otherwise. -/
theorem contextResetRunE_clears_current (app : Option AppContext) (w : World)
    (conn : Conn) (r : Option Event) (store : ContextStore)
    (happ : app.bind (·.Conn) = some conn)
    (hlogoff : Req conn .logoff = .ok r)
    (hfile : w.file = .content store)
    (hcur : store.Current ≠ "")
    (hdisk : w.diskWritable = true) :
    ∃ store2,
      contextResetRunE app w
        = (none, { w with file := .content store2, writes := w.writes ++ [store2] }) ∧
      store2.Current = store.Current ∧
      List.Forall₂
        (fun c c2 => c2.Name = c.Name ∧ c2.Host = c.Host ∧ c2.Port = c.Port ∧
          c2.Session = if c.Name = store.Current then none else c.Session)
        store.Contexts store2.Contexts := by
  refine ⟨_, contextResetRunE_ok app w conn r store happ hlogoff hfile hcur hdisk, rfl, ?_⟩
  simp only [List.forall₂_map_right_iff, List.forall₂_same]
  intro c _
  by_cases hn : c.Name = store.Current <;> simp [hn]

/-- C9, at the store with current profile `layout` (session `0.0.0.0:21106`)
and profile `club` (session `0.0.0.0:40000`): after the reset the file holds
`layout` without session and `club` unchanged. -/
theorem contextResetRunE_clears_current_witness :
    (contextResetRunE (some (exampleApp (.ok none)))
        (exampleWorld (some { LocalHost := "0.0.0.0", LocalPort := 21106 }))).2.file
      = .content (exampleStore none) := by
  obtain ⟨store2, hrun, hcurrent, hall⟩ := contextResetRunE_clears_current
    (some (exampleApp (.ok none)))
    (exampleWorld (some { LocalHost := "0.0.0.0", LocalPort := 21106 }))
    (exampleConn (.ok none)) none
    (exampleStore (some { LocalHost := "0.0.0.0", LocalPort := 21106 }))
    rfl rfl rfl (by decide) rfl
  rw [hrun]
  show FileState.content store2 = FileState.content (exampleStore none)
  congr 1
  obtain ⟨current, contexts⟩ := store2
  simp only [exampleStore] at hcurrent hall ⊢
  subst hcurrent
  congr 1
  cases hall with
  | cons h1 hrest =>
    cases hrest with
    | cons h2 hnil =>
      cases hnil
      rename_i a b
      obtain ⟨n1, h1⟩ := a
      obtain ⟨n2, h2⟩ := b
      simp_all

/-- C10 (as amended): the reset action clears nothing unless the logoff request
succeeds. If the logoff request fails or times out, the action returns that
error and the world, with the stored session, is left as it was; if it
returns without error (store with a current selection, writable file), every
profile named `Current` is stored without session. -/
theorem contextResetRunE_needs_logoff (app : Option AppContext) (w : World) (conn : Conn)
    (happ : app.bind (·.Conn) = some conn) :
    (∀ err, Req conn .logoff = .error err → contextResetRunE app w = (some err, w)) ∧
    (∀ r store, Req conn .logoff = .ok r → w.file = .content store →
      store.Current ≠ "" → w.diskWritable = true →
      ∃ store2, (contextResetRunE app w).2.file = .content store2 ∧
        ∀ c ∈ store2.Contexts, c.Name = store.Current → c.Session = none) := by
  refine ⟨fun err h => contextResetRunE_logoff_error app w conn err happ h, ?_⟩
  intro r store hlogoff hfile hcur hdisk
  rw [contextResetRunE_ok app w conn r store happ hlogoff hfile hcur hdisk]
  refine ⟨_, rfl, ?_⟩
  intro c hc hn
  simp only [List.mem_map] at hc
  obtain ⟨d, _, hd⟩ := hc
  by_cases hdn : d.Name = store.Current
  · simp only [hdn, if_true] at hd
    rw [← hd]
  · simp only [hdn, if_false] at hd
    rw [hd] at hdn
    exact absurd hn hdn

/-- C10 (as amended), at a logoff request that times out: the action returns
the error and the file still holds the session `0.0.0.0:21106` of `layout`. -/
theorem contextResetRunE_needs_logoff_witness :
    contextResetRunE (some (exampleApp (.error "timeout")))
        (exampleWorld (some { LocalHost := "0.0.0.0", LocalPort := 21106 }))
      = (some "timeout",
         exampleWorld (some { LocalHost := "0.0.0.0", LocalPort := 21106 })) :=
  (contextResetRunE_needs_logoff (some (exampleApp (.error "timeout")))
    (exampleWorld (some { LocalHost := "0.0.0.0", LocalPort := 21106 }))
    (exampleConn (.error "timeout")) rfl).1 "timeout" rfl

/-- C10 fails as stated: with a logoff request that times out, the reset
action on the store with current profile `layout` returns the error, writes
nothing, and the session `0.0.0.0:21106` of `layout` is still stored. -/
theorem contextResetRunE_logoff_timeout_keeps_session :
    Req (exampleConn (.error "timeout")) .logoff = .error "timeout" ∧
    (contextResetRunE (some (exampleApp (.error "timeout")))
        (exampleWorld (some { LocalHost := "0.0.0.0", LocalPort := 21106 }))).1
      = some "timeout" ∧
    (contextResetRunE (some (exampleApp (.error "timeout")))
        (exampleWorld (some { LocalHost := "0.0.0.0", LocalPort := 21106 }))).2.writes = [] ∧
    (contextResetRunE (some (exampleApp (.error "timeout")))
        (exampleWorld (some { LocalHost := "0.0.0.0", LocalPort := 21106 }))).2.file
      = .content
          { Current := "layout",
            Contexts :=
              [{ Name := "layout", Host := "192.168.0.111", Port := 21105,
                 Session := some { LocalHost := "0.0.0.0", LocalPort := 21106 } },
               { Name := "club", Host := "10.0.0.5", Port := 21105,
                 Session := some { LocalHost := "0.0.0.0", LocalPort := 40000 } }] } := by
  refine ⟨rfl, ?_, ?_, ?_⟩ <;> decide

/-! ## Requests -/

/-- C11: `Req` reports success with an empty value when the connection hands
back a reply of another type. For a request of type `other 1`, a reply of type
`other 2` makes `Req` return the empty value with a nil error (not an error),
while a reply of type `other 1` is returned as it is and an error of the
connection is passed on. -/
theorem Req_wrong_type_nil_error :
    Req (exampleConn (.ok (some (.other 2)))) (.other 1) = .ok none ∧
    Req (exampleConn (.ok (some (.other 1)))) (.other 1) = .ok (some (.other 1)) ∧
    Req (exampleConn (.error "timeout")) (.other 1) = .error "timeout" :=
  ⟨rfl, rfl, rfl⟩

/-! ## Closing the connection -/

/-- C12: three runs of a command under `rootCmd`. (1) Fresh profile and a
context file that cannot be written: `InitAppContext` opens a connection,
fails in `saveSessionInfo`, and the run ends with one connection opened and
none closed. (2) A command body that returns an error: again one opened, none
closed. (3) A command body that returns nil: one opened, one closed. (4) A
connection whose local endpoint cannot be read back: `InitAppContext` returns
the error, one connection opened, none closed. -/
theorem rootExecute_leaves_connection_open :
    ((InitAppContext (exampleNet true)
        { exampleWorld none with diskWritable := false }).err = some "write failed" ∧
     (rootExecute (exampleNet true) { exampleWorld none with diskWritable := false }
        (fun _ w => (none, w))).2.connsOpened = 1 ∧
     (rootExecute (exampleNet true) { exampleWorld none with diskWritable := false }
        (fun _ w => (none, w))).2.connsClosed = 0) ∧
    ((rootExecute (exampleNet true) (exampleWorld none)
        (fun _ w => (some "failed to turn power on", w))).1
        = some "failed to turn power on" ∧
     (rootExecute (exampleNet true) (exampleWorld none)
        (fun _ w => (some "failed to turn power on", w))).2.connsOpened = 1 ∧
     (rootExecute (exampleNet true) (exampleWorld none)
        (fun _ w => (some "failed to turn power on", w))).2.connsClosed = 0) ∧
    ((rootExecute (exampleNet true) (exampleWorld none) (fun _ w => (none, w))).1 = none ∧
     (rootExecute (exampleNet true) (exampleWorld none)
        (fun _ w => (none, w))).2.connsOpened = 1 ∧
     (rootExecute (exampleNet true) (exampleWorld none)
        (fun _ w => (none, w))).2.connsClosed = 1) ∧
    ((rootExecute
        { connect := fun _ _ => .ok
            { sendRcv := fun _ => .ok none, localEndpoint := .error "missing port" } }
        (exampleWorld none) (fun _ w => (none, w))).1 = some "missing port" ∧
     (rootExecute
        { connect := fun _ _ => .ok
            { sendRcv := fun _ => .ok none, localEndpoint := .error "missing port" } }
        (exampleWorld none) (fun _ w => (none, w))).2.connsOpened = 1 ∧
     (rootExecute
        { connect := fun _ _ => .ok
            { sendRcv := fun _ => .ok none, localEndpoint := .error "missing port" } }
        (exampleWorld none) (fun _ w => (none, w))).2.connsClosed = 0) := by
  refine ⟨⟨?_, ?_, ?_⟩, ⟨?_, ?_, ?_⟩, ⟨?_, ?_, ?_⟩, ⟨?_, ?_, ?_⟩⟩ <;> decide

/-! ## Discovery: merging reports of one device -/

/-- C13: in the device map of scan-all, the record of a network identifier has
the identifier and the address of the first detector-status event carrying
that identifier, and its ports are the ports of the detector-status events
carrying it, in arrival order; a further detector-status event of that
identifier leaves identifier and address as they are and puts its port after
the existing ones. -/
theorem canDiscoverFold_first_sighting (k : Z21Consts) (events : List Event) (nid : Nat)
    (d : Detector) (h : canDiscoverFold k events nid = some d) :
    (∃ v vs, (statusReports k events).filter (fun x => x.NetworkID = nid) = v :: vs ∧
      d.NetworkID = nid ∧ d.NetworkID = v.NetworkID ∧ d.Address = v.Address ∧
      d.Ports.map (·.Index) = (v :: vs).map (·.Port)) ∧
    (∀ e : CanDetector, e.Typ = k.CANMessageTypeStatus → e.NetworkID = nid →
      canDiscoverFold k (events ++ [.canDetector e]) nid
        = some { d with Ports := d.Ports ++ [{ Index := e.Port, Status := 0 }] }) := by
  constructor
  · rw [canDiscoverFold_eq] at h
    unfold deviceOfReports at h
    cases hf : (statusReports k events).filter (fun x => x.NetworkID = nid) with
    | nil => simp [hf] at h
    | cons v vs =>
      simp only [hf, Option.some.injEq] at h
      subst h
      have hv : v ∈ (statusReports k events).filter (fun x => x.NetworkID = nid) := by
        rw [hf]; exact List.mem_cons_self _ _
      have hn : v.NetworkID = nid := by simpa using (List.mem_filter.1 hv).2
      exact ⟨v, vs, rfl, hn, rfl, rfl, by simp⟩
  · intro e ht hn
    have hfold : canDiscoverFold k (events ++ [.canDetector e])
        = canDiscoverStep k (canDiscoverFold k events) (.canDetector e) := by
      simp [canDiscoverFold, List.foldl_append]
    rw [hfold]
    subst hn
    simp [canDiscoverStep, ht, h]

/-- C13, at a window with two reports of device 7 (ports 0 and 4, the second
one with another address), one of device 9 and an event of another kind. -/
theorem canDiscoverFold_first_sighting_witness :
    ∃ v vs, (statusReports exampleConsts
        [exampleReport 7 1 0 0, .other 4, exampleReport 9 2 5 0,
          exampleReport 7 3 4 0]).filter (fun x => x.NetworkID = 7) = v :: vs ∧
      (7 : Nat) = 7 ∧ 7 = v.NetworkID ∧ 1 = v.Address ∧
      [0, 4] = (v :: vs).map (·.Port) :=
  (canDiscoverFold_first_sighting exampleConsts
    [exampleReport 7 1 0 0, .other 4, exampleReport 9 2 5 0, exampleReport 7 3 4 0] 7
    { NetworkID := 7, Address := 1,
      Ports := [{ Index := 0, Status := 0 }, { Index := 4, Status := 0 }] }
    (by decide)).1

/-! ## Invariants of the profile store -/

theorem saveContexts_inv (P : ContextStore → Prop) (store : ContextStore) (w : World)
    (hw : ∀ s, loadContexts w = .ok s → P s) (hs : P store) :
    ∀ s, loadContexts (saveContexts store w).2 = .ok s → P s := by
  intro s h
  unfold saveContexts at h
  by_cases hd : w.diskWritable = true
  · simp only [hd, if_true, loadContexts] at h
    injection h with h
    rw [← h]
    exact hs
  · simp only [hd] at h
    exact hw s h

theorem jsonString_ofString (s : String) : jsonString (GoString.ofString s) = s := by
  simp [jsonString, GoString.ofString, List.map_map, Function.comp_def]

theorem ofString_inj (a b : String) :
    GoString.ofString a = GoString.ofString b ↔ a = b := by
  constructor
  · intro h
    rw [← jsonString_ofString a, ← jsonString_ofString b, h]
  · intro h
    rw [h]

theorem any_name_iff (name : GoString) (l : List ContextInfo) :
    l.any (fun c => decide (GoString.ofString c.Name = name)) = true
      ↔ ∃ c ∈ l, GoString.ofString c.Name = name := by
  simp [List.any_eq_true]

theorem setSessionOfFirst_names (name : String) (sess : SessionInfo)
    (l l2 : List ContextInfo) (h : setSessionOfFirst name sess l = some l2) :
    l2.map (·.Name) = l.map (·.Name) := by
  induction l generalizing l2 with
  | nil => simp [setSessionOfFirst] at h
  | cons c cs ih =>
    unfold setSessionOfFirst at h
    by_cases hc : c.Name = name
    · simp only [hc, if_true, Option.some.injEq] at h
      subst h
      simp [hc]
    · simp only [hc, if_false, Option.map_eq_some'] at h
      obtain ⟨t, ht, rfl⟩ := h
      simp [ih t ht]

theorem contextAddCmd_inv (P : ContextStore → Prop) (name host : GoString) (port : Int)
    (w : World) (hw : ∀ s, loadContexts w = .ok s → P s)
    (hstep : ∀ store, loadContexts w = .ok store →
      (∀ c ∈ store.Contexts, GoString.ofString c.Name ≠ name) →
      ∀ c : ContextInfo, c.Name = jsonString name →
        P { Current := if (store.Contexts ++ [c]).length = 1 then jsonString name
                       else store.Current,
            Contexts := store.Contexts ++ [c] }) :
    ∀ s, loadContexts (contextAddCmd name host port w).2 = .ok s → P s := by
  unfold contextAddCmd
  cases hl : loadContexts w with
  | error e => exact hw
  | ok store =>
    by_cases ha : store.Contexts.any (fun c => decide (GoString.ofString c.Name = name)) = true
    · simp only [ha, if_true]
      exact hw
    · simp only [ha]
      apply saveContexts_inv P _ w hw
      apply hstep store hl _ _ rfl
      intro c hc hn
      exact ha ((any_name_iff name _).2 ⟨c, hc, hn⟩)

theorem contextUseCmd_inv (P : ContextStore → Prop) (name : GoString) (w : World)
    (hw : ∀ s, loadContexts w = .ok s → P s)
    (hstep : ∀ store, loadContexts w = .ok store →
      (∃ c ∈ store.Contexts, GoString.ofString c.Name = name) →
      P { store with Current := jsonString name }) :
    ∀ s, loadContexts (contextUseCmd name w).2 = .ok s → P s := by
  unfold contextUseCmd
  cases hl : loadContexts w with
  | error e => exact hw
  | ok store =>
    by_cases ha : store.Contexts.any (fun c => decide (GoString.ofString c.Name = name)) = true
    · simp only [ha, if_true]
      exact saveContexts_inv P _ w hw (hstep store hl ((any_name_iff name _).1 ha))
    · simp only [ha]
      exact hw

theorem contextRmCmd_inv (P : ContextStore → Prop) (name : GoString) (w : World)
    (hw : ∀ s, loadContexts w = .ok s → P s)
    (hstep : ∀ store, loadContexts w = .ok store →
      (∃ c ∈ store.Contexts, GoString.ofString c.Name = name) →
      P { Current := if GoString.ofString store.Current = name then "" else store.Current,
          Contexts := store.Contexts.filter
            (fun c => !decide (GoString.ofString c.Name = name)) }) :
    ∀ s, loadContexts (contextRmCmd name w).2 = .ok s → P s := by
  unfold contextRmCmd
  cases hl : loadContexts w with
  | error e => exact hw
  | ok store =>
    by_cases ha : store.Contexts.any (fun c => decide (GoString.ofString c.Name = name)) = true
    · simp only [ha, if_true]
      exact saveContexts_inv P _ w hw (hstep store hl ((any_name_iff name _).1 ha))
    · simp only [ha]
      exact hw

theorem contextResetRunE_inv (P : ContextStore → Prop) (app : Option AppContext)
    (w : World) (hw : ∀ s, loadContexts w = .ok s → P s)
    (hstep : ∀ store, loadContexts w = .ok store →
      P { store with Contexts := store.Contexts.map fun c =>
            if c.Name = store.Current then { c with Session := none } else c }) :
    ∀ s, loadContexts (contextResetRunE app w).2 = .ok s → P s := by
  unfold contextResetRunE
  cases ha : app.bind (·.Conn) with
  | none => exact hw
  | some conn =>
    simp only []
    cases hq : Req conn .logoff with
    | error e => exact hw
    | ok r =>
      simp only []
      cases hl : loadContexts w with
      | error e => exact hw
      | ok store =>
        simp only []
        by_cases hc : store.Current = ""
        · simp only [hc, if_true]
          exact hw
        · simp only [hc, if_false]
          exact saveContexts_inv P _ w hw (hstep store hl)

theorem saveSessionInfo_inv (P : ContextStore → Prop) (sess : SessionInfo)
    (ctx : ContextInfo) (w : World) (hw : ∀ s, loadContexts w = .ok s → P s)
    (hstep : ∀ store contexts, loadContexts w = .ok store →
      setSessionOfFirst ctx.Name sess store.Contexts = some contexts →
      P { store with Contexts := contexts }) :
    ∀ s, loadContexts (saveSessionInfo sess ctx w).2 = .ok s → P s := by
  unfold saveSessionInfo
  cases hl : loadContexts w with
  | error e => exact hw
  | ok store =>
    simp only []
    cases hs : setSessionOfFirst ctx.Name sess store.Contexts with
    | none => exact hw
    | some contexts => exact saveContexts_inv P _ w hw (hstep store contexts hl hs)

theorem exampleWorld_load (session : Option SessionInfo) (s : ContextStore)
    (h : loadContexts (exampleWorld session) = .ok s) : s = exampleStore session := by
  have : (Except.ok (exampleStore session) : Except String ContextStore) = .ok s := h
  injection this with this
  exact this.symm

theorem exampleWorld_namesUnique (session : Option SessionInfo) :
    NamesUnique (exampleWorld session) := by
  intro s hs
  rw [exampleWorld_load session s hs]
  simp [exampleStore]

theorem exampleWorld_currentValid (session : Option SessionInfo) :
    CurrentValid (exampleWorld session) := by
  intro s hs
  rw [exampleWorld_load session s hs]
  exact Or.inr ⟨_, List.mem_cons_self _ _, rfl⟩

/-- Uniqueness of the profile names is kept by `use`, `rm`, the reset action
and `saveSessionInfo` on every outcome, and by `context add` when the new name
is valid UTF-8; `context add` with a name that is already present returns the
error "already exists" and leaves the world as it was. -/
theorem namesUnique_preserved (w : World) (h : NamesUnique w) :
    (∀ name host port, GoString.ofString (jsonString name) = name →
      NamesUnique (contextAddCmd name host port w).2) ∧
    (∀ name, NamesUnique (contextUseCmd name w).2) ∧
    (∀ name, NamesUnique (contextRmCmd name w).2) ∧
    (∀ app, NamesUnique (contextResetRunE app w).2) ∧
    (∀ sess ctx, NamesUnique (saveSessionInfo sess ctx w).2) ∧
    (∀ name host port store, loadContexts w = .ok store →
      (∃ c ∈ store.Contexts, GoString.ofString c.Name = name) →
      contextAddCmd name host port w
        = (some ("context " ++ goQuote name ++ " already exists"), w)) := by
  refine ⟨?_, ?_, ?_, ?_, ?_, ?_⟩
  · intro name host port hvalid
    apply contextAddCmd_inv _ name host port w h
    intro store hl hnew c hc
    have hu := h store hl
    simp only [List.map_append, List.map_cons, List.map_nil, hc]
    rw [List.nodup_append]
    refine ⟨hu, by simp, ?_⟩
    intro a ha hb
    simp only [List.mem_singleton] at hb
    subst hb
    obtain ⟨d, hd, hdn⟩ := List.mem_map.1 ha
    apply hnew d hd
    have hdn2 : d.Name = jsonString name := hdn
    rw [hdn2, hvalid]
  · intro name
    apply contextUseCmd_inv _ name w h
    intro store hl _
    exact h store hl
  · intro name
    apply contextRmCmd_inv _ name w h
    intro store hl _
    exact (h store hl).sublist ((List.filter_sublist _).map _)
  · intro app
    apply contextResetRunE_inv _ app w h
    intro store hl
    have hu := h store hl
    have e : (store.Contexts.map fun c =>
        if c.Name = store.Current then { c with Session := none } else c).map (·.Name)
        = store.Contexts.map (·.Name) := by
      rw [List.map_map]
      apply List.map_congr_left
      intro c _
      by_cases hc : c.Name = store.Current <;> simp [hc]
    show (List.map (fun c : ContextInfo => c.Name) _).Nodup
    rw [e]
    exact hu
  · intro sess ctx
    apply saveSessionInfo_inv _ sess ctx w h
    intro store contexts hl hs
    show (contexts.map (·.Name)).Nodup
    rw [setSessionOfFirst_names ctx.Name sess store.Contexts contexts hs]
    exact h store hl
  · intro name host port store hl hex
    have ha := (any_name_iff name store.Contexts).2 hex
    simp only [contextAddCmd, hl, ha, if_true]

/-- C16: `context add` with the name `\xff` (one byte, not valid UTF-8), run
twice from an empty store. The first run stores one profile, whose name reads
back as U+FFFD. The second run finds no profile of the name `\xff`, returns no
error, and stores a second profile whose name reads back as U+FFFD too: the
names were pairwise distinct before the second run and are not after it. -/
theorem contextAddCmd_invalid_name_duplicates :
    (contextAddCmd [.invalid 255] [] 0 emptyWorld).1 = none ∧
    NamesUnique (contextAddCmd [.invalid 255] [] 0 emptyWorld).2 ∧
    (contextAddCmd [.invalid 255] [] 0
      (contextAddCmd [.invalid 255] [] 0 emptyWorld).2).1 = none ∧
    (contextAddCmd [.invalid 255] [] 0
      (contextAddCmd [.invalid 255] [] 0 emptyWorld).2).2.file
      = .content
          { Current := String.mk [Char.ofNat 65533],
            Contexts :=
              [{ Name := String.mk [Char.ofNat 65533], Host := "127.0.0.1", Port := 21105,
                 Session := none },
               { Name := String.mk [Char.ofNat 65533], Host := "127.0.0.1", Port := 21105,
                 Session := none }] } ∧
    ¬ NamesUnique (contextAddCmd [.invalid 255] [] 0
      (contextAddCmd [.invalid 255] [] 0 emptyWorld).2).2 := by
  have h1 : (contextAddCmd [.invalid 255] [] 0 emptyWorld).2.file
      = .content
          { Current := String.mk [Char.ofNat 65533],
            Contexts :=
              [{ Name := String.mk [Char.ofNat 65533], Host := "127.0.0.1", Port := 21105,
                 Session := none }] } := by decide
  refine ⟨by decide, ?_, by decide, by decide, ?_⟩
  · intro s hs
    simp only [loadContexts, h1] at hs
    injection hs with hs
    subst hs
    simp
  · intro hu
    have hdup := hu
      { Current := String.mk [Char.ofNat 65533],
        Contexts :=
          [{ Name := String.mk [Char.ofNat 65533], Host := "127.0.0.1", Port := 21105,
             Session := none },
           { Name := String.mk [Char.ofNat 65533], Host := "127.0.0.1", Port := 21105,
             Session := none }] } rfl
    simp at hdup

/-- C17: if `Current` is empty or the name of a stored profile, the same holds
after `context add`, `use` and `rm`, whatever their arguments and outcome;
`use` and `rm` with a name that no stored profile has return the error "not
found" and leave the world, with the store, as it was; and `rm` of the current
profile (on a writable file) stores an empty `Current` and the profiles of
other names. -/
theorem current_selection_stays_valid (w : World) (h : CurrentValid w) :
    (∀ name host port, CurrentValid (contextAddCmd name host port w).2) ∧
    (∀ name, CurrentValid (contextUseCmd name w).2) ∧
    (∀ name, CurrentValid (contextRmCmd name w).2) ∧
    (∀ name store, loadContexts w = .ok store →
      (∀ c ∈ store.Contexts, GoString.ofString c.Name ≠ name) →
      contextUseCmd name w = (some ("context " ++ goQuote name ++ " not found"), w) ∧
      contextRmCmd name w = (some ("context " ++ goQuote name ++ " not found"), w)) ∧
    (∀ store, loadContexts w = .ok store →
      (∃ c ∈ store.Contexts, c.Name = store.Current) → w.diskWritable = true →
      (contextRmCmd (GoString.ofString store.Current) w).1 = none ∧
      loadContexts (contextRmCmd (GoString.ofString store.Current) w).2
        = .ok { Current := "",
                Contexts := store.Contexts.filter
                  (fun c => !decide (c.Name = store.Current)) }) := by
  refine ⟨?_, ?_, ?_, ?_, ?_⟩
  · intro name host port
    apply contextAddCmd_inv _ name host port w h
    intro store hl _ c hc
    by_cases hlen : (store.Contexts ++ [c]).length = 1
    · simp only [hlen, if_true]
      exact Or.inr ⟨c, by simp, hc⟩
    · simp only [hlen, if_false]
      rcases h store hl with h0 | ⟨d, hd, hdn⟩
      · exact Or.inl h0
      · exact Or.inr ⟨d, List.mem_append_left _ hd, hdn⟩
  · intro name
    apply contextUseCmd_inv _ name w h
    intro store _ hex
    obtain ⟨c, hc, hn⟩ := hex
    refine Or.inr ⟨c, hc, ?_⟩
    show c.Name = jsonString name
    rw [← hn, jsonString_ofString]
  · intro name
    apply contextRmCmd_inv _ name w h
    intro store hl _
    by_cases hc : GoString.ofString store.Current = name
    · simp [hc]
    · simp only [hc, if_false]
      rcases h store hl with h0 | ⟨d, hd, hdn⟩
      · exact Or.inl h0
      · refine Or.inr ⟨d, ?_, hdn⟩
        rw [List.mem_filter]
        refine ⟨hd, ?_⟩
        have : GoString.ofString d.Name ≠ name := by rw [hdn]; exact hc
        simp [this]
  · intro name store hl hnone
    have ha : ¬ store.Contexts.any
        (fun c => decide (GoString.ofString c.Name = name)) = true := by
      intro ha
      obtain ⟨c, hc, hn⟩ := (any_name_iff name _).1 ha
      exact hnone c hc hn
    constructor
    · simp only [contextUseCmd, hl, ha]
      rfl
    · simp only [contextRmCmd, hl, ha]
      rfl
  · intro store hl hex hd
    have hex2 : ∃ c ∈ store.Contexts,
        GoString.ofString c.Name = GoString.ofString store.Current := by
      obtain ⟨c, hc, hn⟩ := hex
      exact ⟨c, hc, by rw [hn]⟩
    have ha := (any_name_iff (GoString.ofString store.Current) store.Contexts).2 hex2
    simp only [contextRmCmd, hl, ha, if_true, saveContexts, hd]
    simp [loadContexts, ofString_inj]

/-- C17, at the store with current profile `layout` and profile `club`:
removing `club` keeps the selection valid, `use yard` fails without a change,
and removing `layout` empties `Current`. -/
theorem current_selection_stays_valid_witness :
    CurrentValid (contextRmCmd (GoString.ofString "club") (exampleWorld none)).2 ∧
    contextUseCmd (GoString.ofString "yard") (exampleWorld none)
      = (some "context \"yard\" not found", exampleWorld none) ∧
    loadContexts (contextRmCmd (GoString.ofString "layout") (exampleWorld none)).2
      = .ok { Current := "", Contexts := (exampleStore none).Contexts.tail } :=
  ⟨(current_selection_stays_valid (exampleWorld none) (exampleWorld_currentValid none)).2.2.1
      (GoString.ofString "club"),
   ((current_selection_stays_valid (exampleWorld none)
      (exampleWorld_currentValid none)).2.2.2.1 (GoString.ofString "yard")
      (exampleStore none) rfl (by decide)).1,
   ((current_selection_stays_valid (exampleWorld none)
      (exampleWorld_currentValid none)).2.2.2.2 (exampleStore none) rfl
      ⟨_, List.mem_cons_self _ _, rfl⟩ rfl).2⟩

/-! ## Reading the range string back -/

set_option maxRecDepth 100000 in
theorem repr_uint8_facts : ∀ n, n < 256 →
    ',' ∉ (Nat.repr n).toList ∧ '-' ∉ (Nat.repr n).toList ∧
      parseDecimal (Nat.repr n).toList = n := by
  decide

theorem intercalate_singleton_cons (x : Char) (l : List Char) (ls : List (List Char)) :
    [x].intercalate (l :: ls) = l ++ (ls.map (x :: ·)).flatten := by
  induction ls generalizing l with
  | nil => simp [List.intercalate]
  | cons m ms ih =>
    have h := ih m
    simp only [List.intercalate, List.intersperse, List.flatten_cons, List.map_cons] at h ⊢
    rw [h]
    simp

theorem intercalate_go_toList (acc : String) (l : List String) :
    (String.intercalate.go acc "," l).toList
      = acc.toList ++ (l.map (fun a => ',' :: a.toList)).flatten := by
  induction l generalizing acc with
  | nil => simp [String.intercalate.go]
  | cons a as ih =>
    simp only [String.intercalate.go, ih, List.map_cons, List.flatten_cons]
    simp

theorem intercalate_toList (parts : List String) :
    (",".intercalate parts).toList = [','].intercalate (parts.map (·.toList)) := by
  cases parts with
  | nil => rfl
  | cons a as =>
    simp only [String.intercalate, intercalate_go_toList, List.map_cons,
      intercalate_singleton_cons, List.map_map]
    rfl

theorem splitOn_of_not_mem (x : Char) (l : List Char) (h : x ∉ l) :
    l.splitOn x = [l] := by
  have e := List.splitOn_intercalate [l] x (by simpa using h) (by simp)
  simpa [List.intercalate] using e

theorem splitOn_pair (x : Char) (l m : List Char) (hl : x ∉ l) (hm : x ∉ m) :
    (l ++ x :: m).splitOn x = [l, m] := by
  have e := List.splitOn_intercalate [l, m] x
    (by intro t ht; simp only [List.mem_cons, List.mem_singleton] at ht
        rcases ht with rfl | rfl | ht
        · exact hl
        · exact hm
        · cases ht) (by simp)
  rw [intercalate_singleton_cons] at e
  simpa using e

theorem parsePiece_renderRun (r : Nat × Nat) (h : r.1 ≤ r.2) (h2 : r.2 < 255) :
    parsePiece (renderRun r).toList = runIndices r := by
  obtain ⟨a, b⟩ := r
  simp only at h h2
  have ha := repr_uint8_facts (a + 1) (by omega)
  have hb := repr_uint8_facts (b + 1) (by omega)
  unfold renderRun parsePiece runIndices
  by_cases hab : a = b
  · subst hab
    simp only [if_true, splitOn_of_not_mem '-' _ ha.2.1, ha.2.2]
    simp
  · simp only [hab, if_false, String.toList, String.data_append, List.append_assoc]
    simp only [String.toList] at ha hb
    rw [List.singleton_append, splitOn_pair '-' _ _ ha.2.1 hb.2.1]
    simp only [ha.2.2, hb.2.2]
    have hn : b + 1 + 1 - (a + 1) = b + 1 - a := by omega
    rw [hn, List.map_sub_range' 1 (a + 1) _ (by omega)]
    simp

/-- C15: for every non-empty sequence of ports whose indices are below 255, in
any order and with any repetitions, reading the output of `formatPortsAsRange`
back (split on commas, expand `"a-b"` to `a, ..., b` and `"a"` to `a`,
subtract one from every number, concatenate in order) gives exactly the
sequence of the indices. -/
theorem formatPortsAsRange_lossless (ports : List DetectorPort) (hne : ports ≠ [])
    (hlt : ∀ p ∈ ports, p.Index < 255) :
    parseRanges (formatPortsAsRange ports) = ports.map (·.Index) := by
  cases ports with
  | nil => exact absurd rfl hne
  | cons p rest =>
    have hp : p.Index < 255 := hlt p (by simp)
    have hrest : ∀ q ∈ rest, q.Index < 255 := fun q hq => hlt q (List.mem_cons_of_mem _ hq)
    have hmax := runsFrom_isMaximalRuns p.Index (rest.map (·.Index))
    have hb := runsFrom_bound 255 p.Index p.Index (rest.map (·.Index)) hp hp
      (by simpa using hrest)
    obtain ⟨last, t, hrs⟩ := runsFrom_head p.Index p.Index (rest.map (·.Index))
    have hfmt : formatPortsAsRange (p :: rest)
        = ",".intercalate ((runsFrom p.Index p.Index (rest.map (·.Index))).map renderRun) := by
      show ",".intercalate (formatPortsAsRangeLoop [] p.Index p.Index rest) = _
      rw [formatPortsAsRangeLoop_eq [] p.Index p.Index rest hp hrest, List.nil_append]
      congr 1
      apply List.map_congr_left
      intro r hr
      exact formatRange_eq_renderRun r (hb r hr).1 (hb r hr).2
    unfold parseRanges
    rw [hfmt, intercalate_toList, List.splitOn_intercalate]
    · have e : (((runsFrom p.Index p.Index (rest.map (·.Index))).map renderRun).map
            (·.toList)).map parsePiece
          = (runsFrom p.Index p.Index (rest.map (·.Index))).map runIndices := by
        rw [List.map_map, List.map_map]
        apply List.map_congr_left
        intro r hr
        exact parsePiece_renderRun r (hmax.ordered r hr) (hb r hr).2
      rw [e, hmax.covers]
      rfl
    · intro l hl
      simp only [List.map_map, List.mem_map, Function.comp] at hl
      obtain ⟨r, hr, rfl⟩ := hl
      have h1 := repr_uint8_facts (r.1 + 1) (by have := (hb r hr).1; omega)
      have h2 := repr_uint8_facts (r.2 + 1) (by have := (hb r hr).2; omega)
      unfold renderRun
      split
      · exact h1.1
      · simp only [String.toList, String.data_append, List.mem_append, not_or]
        exact ⟨⟨h1.1, by decide⟩, h2.1⟩
    · rw [hrs]
      simp

/-- C15, at the ports `[5, 3, 3, 4, 0]`: the output is `"6,4,4-5,1"`, and
reading it back gives `[5, 3, 3, 4, 0]`. -/
theorem formatPortsAsRange_lossless_witness :
    formatPortsAsRange (portsOf [5, 3, 3, 4, 0]) = "6,4,4-5,1" ∧
    parseRanges "6,4,4-5,1" = [5, 3, 3, 4, 0] := by
  have h := formatPortsAsRange_lossless (portsOf [5, 3, 3, 4, 0]) (by decide) (by decide)
  have e : formatPortsAsRange (portsOf [5, 3, 3, 4, 0]) = "6,4,4-5,1" := by decide
  rw [e] at h
  exact ⟨e, h⟩

end Z21cli
